import Mathlib

/-! BBP Pairings: the pairing checker (`src/tournament/checker.cpp`).

A shallow embedding of `tournament::checker::check`, the routine that replays
a recorded Swiss tournament round by round, asks the pairing engine for the
pairing of each round and reports where the recorded pairing differs.

Conventions of the embedding.

* `player_index` and round indices are natural numbers.  Every index that
  `check` adds one to or compares is the index of a stored player or round,
  so no index arithmetic wraps in the modelled part.  The type `points` of
  the running score is declared in `tournament.h`, which is not among the
  sources; the score is a natural number without a bound.
* `std::vector::operator[]` and the dereference of a list iterator have no
  defined result outside the container.  Such a read is the value `none`:
  a function returning `Option` returns `none` exactly when the C++ code
  would perform an out-of-range read.
* The headers `tournament.h` and `swisssystems/common.h` are not part of the
  checked sources.  Their types are modelled from the specification and the
  functions they declare are parameters, collected in `Collaborators`.
-/

namespace tournament

/-- Modelled from the spec: the colour assignment of a `Match`
(`tournament.h` is not among the sources). -/
inductive Color where
  | white
  | black
  | noColor
deriving DecidableEq

/-- Modelled from the spec: the result encoding of a `Match`
(`tournament.h` is not among the sources). -/
inductive MatchScore where
  | loss
  | draw
  | win
deriving DecidableEq

/-- Modelled from the spec: one player's outcome in one round.  `opponent`
equal to the player's own index is a bye or another unplayed result. -/
structure Match where
  opponent : Nat
  color : Color
  matchScore : MatchScore
  participatedInPairing : Bool
deriving DecidableEq

/-- Modelled from the spec: a player of the replay.  `check` reads and writes
`matches_` (the field `matches` of the source, a reserved word here) and
`scoreWithoutAcceleration`; `derived` stands for every further per-player
field, which only the ranking collaborator rewrites. -/
structure Player where
  matches_ : List Match
  scoreWithoutAcceleration : Nat
  derived : Nat
deriving DecidableEq

/-- Modelled from the spec: the tournament record, used both for the recorded
tournament and for the replay copy. -/
structure Tournament where
  players : List Player
  playersByRank : List Nat
  playedRounds : Nat
deriving DecidableEq

end tournament

namespace swisssystems

open tournament

/-- Modelled from the spec: an edge of one round, `(white, black, color)`;
`black = white` is a bye (`swisssystems/common.h` is not among the sources). -/
structure Pairing where
  white : Nat
  black : Nat
  color : Color
deriving DecidableEq

/-- Two pairings name the same unordered pair of players (or the same
self-loop). -/
def Pairing.sameEdge (a b : Pairing) : Bool :=
  (a.white == b.white && a.black == b.black) ||
  (a.white == b.black && a.black == b.white)

end swisssystems

namespace tournament
namespace checker

open swisssystems

/-- Modelled from the spec: the functions `check` calls whose definitions are
outside the checked sources.

* `rankOrder t` is the order that `Tournament::updateRanks` leaves in
  `playersByRank`;
* `playerData t i` is the derived data that `Tournament::computePlayerData`
  stores for player `i`;
* `getPoints` is `Tournament::getPoints`;
* `computeMatching` is `Info::computeMatching`, `none` standing for a thrown
  `NoValidPairingException`;
* `sortResults` is `swisssystems::sortResults`. -/
structure Collaborators where
  rankOrder : Tournament → List Nat
  playerData : Tournament → Nat → Nat
  getPoints : MatchScore → Nat
  computeMatching : Tournament → Option (List Pairing)
  sortResults : List Pairing → Tournament → List Pairing

/-- Modelled from the spec: `tournament.updateRanks()` rewrites
`playersByRank` and nothing that `check` reads otherwise. -/
def updateRanks (c : Collaborators) (t : Tournament) : Tournament :=
  { t with playersByRank := c.rankOrder t }

/-- Store the derived data `f i` in the player at position `i`, positions
counted from `start`. -/
def setDerived (f : Nat → Nat) : Nat → List Player → List Player
  | _, [] => []
  | start, p :: ps => { p with derived := f start } :: setDerived f (start + 1) ps

/-- Modelled from the spec: `tournament.computePlayerData()` rewrites the
derived per-player fields and nothing that `check` reads otherwise. -/
def computePlayerData (c : Collaborators) (t : Tournament) : Tournament :=
  { t with players := setDerived (c.playerData t) 0 t.players }

/-- What `check` writes and calls, in program order.  `roundHeader`,
`tableHeader`, `tableRow`, `blank` and `noValidPairing` are lines of
`std::cout`; `checklistHeader` is the line written to the checklist stream;
`invoke` records a call of `info.computeMatching` with its argument. -/
inductive Event where
  | roundHeader (filename : String) (round : Nat)
  | checklistHeader (round : Nat)
  | invoke (snapshot : Tournament)
  | tableHeader
  | tableRow (correctWhite correctBlack providedWhite providedBlack : Nat)
  | blank
  | noValidPairing (round : Nat)
deriving DecidableEq

/-- The replay tournament together with everything written so far. -/
structure ReplayState where
  tournament : Tournament
  out : List Event
deriving DecidableEq

/-- The read `t.players[playerIndex].matches[round]`. -/
def matchAt (t : Tournament) (playerIndex round : Nat) : Option Match :=
  match t.players[playerIndex]? with
  | some p => p.matches_[round]?
  | none => none

/-- The loop `// Add byes.` of `check` (lines 60-73), run over the rank
order `order`: a recorded match that did not take part in the pairing is
appended to the replay player before the engine is called. -/
def addByes (originalTournament : Tournament) (round : Nat) :
    List Nat → List Player → Option (List Player)
  | [], players => some players
  | playerIndex :: order, players =>
    match players[playerIndex]?, matchAt originalTournament playerIndex round with
    | some player, some originalMatch =>
      if originalMatch.participatedInPairing = false then
        addByes originalTournament round order
          (players.set playerIndex
            { player with matches_ := player.matches_ ++ [originalMatch] })
      else
        addByes originalTournament round order players
    | _, _ => none

/-- The loop `// Add the results of the round.` of `check` (lines 203-218). -/
def addResults (c : Collaborators) (originalTournament : Tournament) (round : Nat) :
    List Nat → List Player → Option (List Player)
  | [], players => some players
  | playerIndex :: order, players =>
    match players[playerIndex]?, matchAt originalTournament playerIndex round with
    | some player, some m =>
      addResults c originalTournament round order
        (players.set playerIndex
          { player with
            matches_ :=
              if m.participatedInPairing = true then player.matches_ ++ [m]
              else player.matches_
            scoreWithoutAcceleration :=
              player.scoreWithoutAcceleration + c.getPoints m.matchScore })
    | _, _ => none

/-- The loop `// Find the incorrect pairings.` of `check` (lines 101-143).
The first argument is the part of `correctMatching` not yet visited; the
accumulator holds the visited entries that were not erased and
`providedMatching`. -/
def findIncorrect (originalTournament : Tournament) (round : Nat) :
    List Pairing → List Pairing × List Pairing → Option (List Pairing × List Pairing)
  | [], acc => some acc
  | pairing :: rest, (kept, providedMatching) =>
    match matchAt originalTournament pairing.white round with
    | none => none
    | some whiteMatch =>
      if whiteMatch.opponent = pairing.black then
        findIncorrect originalTournament round rest (kept, providedMatching)
      else
        match matchAt originalTournament pairing.black round with
        | none => none
        | some blackMatch =>
          let provided1 :=
            if pairing.white ≤ whiteMatch.opponent then
              providedMatching ++
                [Pairing.mk pairing.white whiteMatch.opponent whiteMatch.color]
            else providedMatching
          let provided2 :=
            if pairing.black < blackMatch.opponent then
              provided1 ++
                [Pairing.mk pairing.black blackMatch.opponent blackMatch.color]
            else provided1
          findIncorrect originalTournament round rest (kept ++ [pairing], provided2)

/-- One line of the table (lines 162-186): player numbers are printed
one-based and the second number of a bye is printed as `0`. -/
def tableRowOf (correctPairing providedPairing : Pairing) : Event :=
  Event.tableRow
    (correctPairing.white + 1)
    (if correctPairing.black = correctPairing.white then 0 else correctPairing.black + 1)
    (providedPairing.white + 1)
    (if providedPairing.black = providedPairing.white then 0 else providedPairing.black + 1)

/-- The loop over `correctMatching` of lines 157-189, which advances
`providedPairingsIterator` once per row.  Reading the iterator at the end of
`providedMatching` has no defined result. -/
def tableRows : List Pairing → List Pairing → Option (List Event)
  | [], _ => some []
  | _ :: _, [] => none
  | correctPairing :: correctMatching, providedPairing :: providedMatching =>
    match tableRows correctMatching providedMatching with
    | some rows => some (tableRowOf correctPairing providedPairing :: rows)
    | none => none

/-- The block `// Output the incorrect pairings.` (lines 146-191). -/
def outputIncorrect (c : Collaborators) (t : Tournament)
    (correctMatching providedMatching : List Pairing) : Option (List Event) :=
  if correctMatching = [] then some []
  else
    match tableRows correctMatching (c.sortResults providedMatching t) with
    | some rows => some (Event.tableHeader :: rows ++ [Event.blank])
    | none => none

/-- The `try`/`catch` block of `check` (lines 93-201) after the engine has
answered `outcome` for the replay tournament `t`. -/
def compareOutcome (c : Collaborators) (originalTournament t : Tournament) :
    Option (List Pairing) → Option (List Event)
  | some correctMatching =>
    match findIncorrect originalTournament t.playedRounds correctMatching ([], []) with
    | some (kept, providedMatching) => outputIncorrect c t kept providedMatching
    | none => none
  | none => some [Event.noValidPairing (t.playedRounds + 1), Event.blank]

/-- Lines 60-76: the byes of the round are added, then ranks and player data
are recomputed.  The result is the tournament copied into
`info.computeMatching`. -/
def beforeInvoke (c : Collaborators) (originalTournament t : Tournament) :
    Option Tournament :=
  match addByes originalTournament t.playedRounds t.playersByRank t.players with
  | some players => some (computePlayerData c (updateRanks c { t with players := players }))
  | none => none

/-- Lines 78-89: the round header on `std::cout` and, when a checklist stream
was given, on that stream. -/
def roundHeaders (filename : String) (checklistStream : Bool) (round : Nat) : List Event :=
  Event.roundHeader filename (round + 1) ::
    (if checklistStream = true then [Event.checklistHeader (round + 1)] else [])

/-- Lines 203-218 applied to the replay tournament. -/
def afterInvoke (c : Collaborators) (originalTournament t : Tournament) :
    Option Tournament :=
  match addResults c originalTournament t.playedRounds t.playersByRank t.players with
  | some players => some { t with players := players }
  | none => none

/-- The body of the loop over the rounds (lines 60-218). -/
def roundBody (c : Collaborators) (originalTournament : Tournament)
    (filename : String) (checklistStream : Bool) (s : ReplayState) : Option ReplayState :=
  match beforeInvoke c originalTournament s.tournament with
  | none => none
  | some t =>
    match compareOutcome c originalTournament t (c.computeMatching t) with
    | none => none
    | some report =>
      match afterInvoke c originalTournament t with
      | none => none
      | some t2 =>
        some
          { tournament := t2
            out := s.out ++ roundHeaders filename checklistStream t.playedRounds ++
              [Event.invoke t] ++ report }

/-- The increment `++tournament.playedRounds` of the loop header. -/
def nextRound (s : ReplayState) : ReplayState :=
  { s with tournament := { s.tournament with playedRounds := s.tournament.playedRounds + 1 } }

/-- The loop `for (tournament.playedRounds = 0; tournament.playedRounds <
originalTournament.playedRounds; ++tournament.playedRounds)`, run for at most
`fuel` iterations. -/
def roundLoop (c : Collaborators) (originalTournament : Tournament)
    (filename : String) (checklistStream : Bool) : Nat → ReplayState → Option ReplayState
  | 0, s => some s
  | fuel + 1, s =>
    if s.tournament.playedRounds < originalTournament.playedRounds then
      match roundBody c originalTournament filename checklistStream s with
      | some s1 => roundLoop c originalTournament filename checklistStream fuel (nextRound s1)
      | none => none
    else some s

/-- Lines 46-56: the replay tournament is a copy of the recorded one with
every match list cleared, every score reset and `playedRounds` set to `0`;
nothing has been written yet. -/
def initialState (originalTournament : Tournament) : ReplayState :=
  { tournament :=
      { originalTournament with
        players := originalTournament.players.map fun player =>
          { player with matches_ := [], scoreWithoutAcceleration := 0 }
        playedRounds := 0 }
    out := [] }

/-- The function `tournament::checker::check`.  No iteration changes
`playedRounds` except the loop header, so `originalTournament.playedRounds`
iterations exhaust the loop (`check_exhausts_loop`). -/
def check (c : Collaborators) (originalTournament : Tournament)
    (filename : String) (checklistStream : Bool) : Option ReplayState :=
  roundLoop c originalTournament filename checklistStream
    originalTournament.playedRounds (initialState originalTournament)

/-! ## Auxiliary definitions: predicates, closed forms and sample inputs -/


/-- The recorded round `round` is symmetric: every player has a match in it
and the opponent of a player's opponent is the player (a bye is its own
twin). -/
def symmetricRound (originalTournament : Tournament) (round : Nat) : Bool :=
  (List.range originalTournament.players.length).all fun p =>
    match matchAt originalTournament p round with
    | some m =>
      match matchAt originalTournament m.opponent round with
      | some twin => twin.opponent == p
      | none => false
    | none => false

/-- The list `matching` is a complete pairing of the players `0 .. n-1`: it
names only these players and each of them is in exactly one of its edges, a
bye being the self-loop of its player. -/
def completePairing (matching : List Pairing) (n : Nat) : Bool :=
  (matching.all fun e => decide (e.white < n) && decide (e.black < n)) &&
  (List.range n).all fun p =>
    (matching.filter fun e => e.white == p || e.black == p).length == 1

/-- The points of a list of matches: the sum of `getPoints` over their
scores. -/
def pointsOf (c : Collaborators) (ms : List Match) : Nat :=
  (ms.map fun m => c.getPoints m.matchScore).sum

/-- The replay state after the first `rounds` iterations of the loop of
`check`. -/
def stateAfter (c : Collaborators) (originalTournament : Tournament)
    (filename : String) (checklistStream : Bool) (rounds : Nat) : Option ReplayState :=
  roundLoop c originalTournament filename checklistStream rounds
    (initialState originalTournament)

/-- The tournament that `check` copies into `info.computeMatching` in round
`round` (counted from `0`), when the run reaches that call. -/
def snapshotAt (c : Collaborators) (originalTournament : Tournament)
    (filename : String) (checklistStream : Bool) (round : Nat) : Option Tournament :=
  match stateAfter c originalTournament filename checklistStream round with
  | some s => beforeInvoke c originalTournament s.tournament
  | none => none

/-- The snapshots of the calls of `info.computeMatching` recorded in a list
of events, in order. -/
def invocations : List Event → List Tournament
  | [] => []
  | Event.invoke t :: rest => t :: invocations rest
  | _ :: rest => invocations rest

/-- Every recorded player has a match for each played round. -/
def HasRounds (originalTournament : Tournament) : Prop :=
  ∀ p ∈ originalTournament.players, originalTournament.playedRounds ≤ p.matches_.length

/-- The rank order lists every player exactly once, in the recorded
tournament and after every call of the ranking collaborator. -/
def RanksEveryPlayer (c : Collaborators) (originalTournament : Tournament) : Prop :=
  originalTournament.playersByRank.Perm (List.range originalTournament.players.length) ∧
  ∀ t : Tournament, (c.rankOrder t).Perm t.playersByRank

/-- Two optional round matches agree for the purpose of the loop that adds
byes: both are absent, or both are present with the same
`participatedInPairing` flag and are equal when that flag is `false`. -/
def ByeAgree : Option Match → Option Match → Prop
  | none, none => True
  | some m, some m2 =>
    m.participatedInPairing = m2.participatedInPairing ∧
      (m.participatedInPairing = false → m = m2)
  | _, _ => False

/-- Two recorded tournaments agree on everything `check` can read before it
calls the engine for round `round`: they may differ in the matches of this
round that took part in the pairing (but not in which matches those are) and
in the matches of later rounds. -/
def AgreeUpTo (round : Nat) (a b : Tournament) : Prop :=
  a.playedRounds = b.playedRounds ∧ a.playersByRank = b.playersByRank ∧
  a.players.length = b.players.length ∧
  ∀ (j : Nat) (p q : Player), a.players[j]? = some p → b.players[j]? = some q →
    p.derived = q.derived ∧ p.matches_.take round = q.matches_.take round ∧
      ByeAgree p.matches_[round]? q.matches_[round]?

/-- What the loop that adds byes does to player `j`, whose replay record is
`p`. -/
def withBye (originalTournament : Tournament) (round j : Nat) (p : Player) : Player :=
  match matchAt originalTournament j round with
  | some m =>
    if m.participatedInPairing = false then { p with matches_ := p.matches_ ++ [m] } else p
  | none => p

/-- What the loop that adds the results does to player `j`, whose replay
record is `p`. -/
def withResult (c : Collaborators) (originalTournament : Tournament) (round j : Nat)
    (p : Player) : Player :=
  match matchAt originalTournament j round with
  | some m =>
    { p with
      matches_ := if m.participatedInPairing = true then p.matches_ ++ [m] else p.matches_
      scoreWithoutAcceleration := p.scoreWithoutAcceleration + c.getPoints m.matchScore }
  | none => p

/-- One pass through the loop header and body of `check`: the body followed
by the increment when the loop condition holds, nothing otherwise. -/
def loopStep (c : Collaborators) (originalTournament : Tournament)
    (filename : String) (checklistStream : Bool) (s : ReplayState) : Option ReplayState :=
  if s.tournament.playedRounds < originalTournament.playedRounds then
    (roundBody c originalTournament filename checklistStream s).map nextRound
  else some s

/-- The replay tournament `t` holds exactly the first `k` recorded rounds:
its round counter is `k`, it has the recorded players, its rank order lists
each of them once, and every player has the first `k` recorded matches and
their points. -/
def ReplayedTo (c : Collaborators) (originalTournament : Tournament) (k : Nat)
    (t : Tournament) : Prop :=
  t.playedRounds = k ∧ t.players.length = originalTournament.players.length ∧
  t.playersByRank.Perm (List.range originalTournament.players.length) ∧
  ∀ (j : Nat) (p op : Player), t.players[j]? = some p →
    originalTournament.players[j]? = some op →
    k ≤ op.matches_.length ∧ p.matches_ = op.matches_.take k ∧
      p.scoreWithoutAcceleration = pointsOf c (op.matches_.take k)

/-- The replay tournament `t` is what the engine is given for round `k`:
every player has the first `k` recorded matches, followed by the recorded
match of round `k` exactly when that match did not take part in the pairing,
and the points of the first `k` matches only. -/
def ReadyFor (c : Collaborators) (originalTournament : Tournament) (k : Nat)
    (t : Tournament) : Prop :=
  t.playedRounds = k ∧ t.players.length = originalTournament.players.length ∧
  t.playersByRank.Perm (List.range originalTournament.players.length) ∧
  ∀ (j : Nat) (p op : Player), t.players[j]? = some p →
    originalTournament.players[j]? = some op →
    ∃ m, op.matches_[k]? = some m ∧
      p.matches_ =
        op.matches_.take k ++ (if m.participatedInPairing = false then [m] else []) ∧
      p.scoreWithoutAcceleration = pointsOf c (op.matches_.take k)

/-- What round `round` contributes to the events of a run that reaches its
call of the engine: the headers, the call, and what the comparison writes. -/
def roundOutput (c : Collaborators) (originalTournament : Tournament)
    (filename : String) (checklistStream : Bool) (round : Nat) : List Event :=
  match snapshotAt c originalTournament filename checklistStream round with
  | some t =>
    roundHeaders filename checklistStream round ++ [Event.invoke t] ++
      (match compareOutcome c originalTournament t (c.computeMatching t) with
       | some report => report
       | none => [])
  | none => []

/-- The events of the rounds `0 .. rounds-1`, round after round. -/
def outputUpTo (c : Collaborators) (originalTournament : Tournament)
    (filename : String) (checklistStream : Bool) : Nat → List Event
  | 0 => []
  | rounds + 1 =>
    outputUpTo c originalTournament filename checklistStream rounds ++
      roundOutput c originalTournament filename checklistStream rounds

/-- The engine's edge `e` does not match the record of round `round`: the
recorded match of its white player has an opponent other than its black
player (the test of line 116, negated). -/
def mismatches (originalTournament : Tournament) (round : Nat) (e : Pairing) : Bool :=
  match matchAt originalTournament e.white round with
  | some whiteMatch => !(whiteMatch.opponent == e.black)
  | none => false

/-- The white-side entry of the emission rule: `(white, actualOpponent white)`
exactly when `white ≤ actualOpponent white`. -/
def emittedWhite (originalTournament : Tournament) (round : Nat) (e : Pairing) :
    List Pairing :=
  match matchAt originalTournament e.white round with
  | some whiteMatch =>
    if e.white ≤ whiteMatch.opponent then
      [Pairing.mk e.white whiteMatch.opponent whiteMatch.color]
    else []
  | none => []

/-- The black-side entry of the emission rule: `(black, actualOpponent black)`
exactly when `black < actualOpponent black`. -/
def emittedBlack (originalTournament : Tournament) (round : Nat) (e : Pairing) :
    List Pairing :=
  match matchAt originalTournament e.black round with
  | some blackMatch =>
    if e.black < blackMatch.opponent then
      [Pairing.mk e.black blackMatch.opponent blackMatch.color]
    else []
  | none => []

/-- The emission rule for one mismatching edge: the white-side entry followed
by the black-side entry. -/
def emitted (originalTournament : Tournament) (round : Nat) (e : Pairing) : List Pairing :=
  emittedWhite originalTournament round e ++ emittedBlack originalTournament round e

/-- The reads of the comparator loop on the list `matching` are in range:
the white player of every edge has a recorded match in the round, and so has
the black player of every mismatching edge. -/
def ReadsInRange (originalTournament : Tournament) (round : Nat)
    (matching : List Pairing) : Prop :=
  ∀ e ∈ matching,
    (∃ whiteMatch, matchAt originalTournament e.white round = some whiteMatch) ∧
    (mismatches originalTournament round e = true →
      ∃ blackMatch, matchAt originalTournament e.black round = some blackMatch)

/-- The set-based formulation of the comparator that the design notes of the
specification describe: it visits the edges as `findIncorrect` does, and for
a mismatching edge it emits the recorded edge of the white player and then
that of the black player, each only when no edge with the same unordered pair
of players has been emitted in this round. -/
def findIncorrectSetBased (originalTournament : Tournament) (round : Nat) :
    List Pairing → List Pairing × List Pairing → Option (List Pairing × List Pairing)
  | [], acc => some acc
  | pairing :: rest, (kept, emittedSoFar) =>
    match matchAt originalTournament pairing.white round with
    | none => none
    | some whiteMatch =>
      if whiteMatch.opponent = pairing.black then
        findIncorrectSetBased originalTournament round rest (kept, emittedSoFar)
      else
        match matchAt originalTournament pairing.black round with
        | none => none
        | some blackMatch =>
          let whiteEdge := Pairing.mk pairing.white whiteMatch.opponent whiteMatch.color
          let emitted1 :=
            if emittedSoFar.any (Pairing.sameEdge whiteEdge) = true then emittedSoFar
            else emittedSoFar ++ [whiteEdge]
          let blackEdge := Pairing.mk pairing.black blackMatch.opponent blackMatch.color
          let emitted2 :=
            if emitted1.any (Pairing.sameEdge blackEdge) = true then emitted1
            else emitted1 ++ [blackEdge]
          findIncorrectSetBased originalTournament round rest (kept ++ [pairing], emitted2)

/-- No player has a bye in the recorded round `round`: no recorded match of
the round names its own player as the opponent. -/
def noByeRound (originalTournament : Tournament) (round : Nat) : Bool :=
  (List.range originalTournament.players.length).all fun p =>
    match matchAt originalTournament p round with
    | some m => !(m.opponent == p)
    | none => true

/-- The event is a row of the pairing table. -/
def isTableRow : Event → Bool
  | Event.tableRow _ _ _ _ => true
  | _ => false

/-- A player record with the given matches and nothing else. -/
def playerWith (ms : List Match) : Player :=
  { matches_ := ms, scoreWithoutAcceleration := 0, derived := 0 }

/-- A recorded one-round tournament of three players: player 0 (white) beat
player 1 and player 2 received the pairing-allocated bye. -/
def recordedWithBye : Tournament :=
  { players :=
      [playerWith [Match.mk 1 Color.white MatchScore.win true],
       playerWith [Match.mk 0 Color.black MatchScore.loss true],
       playerWith [Match.mk 2 Color.noColor MatchScore.win true]]
    playersByRank := [0, 1, 2]
    playedRounds := 1 }

/-- A recorded one-round tournament of two players who played each other. -/
def recordedOneGame : Tournament :=
  { players :=
      [playerWith [Match.mk 1 Color.white MatchScore.win true],
       playerWith [Match.mk 0 Color.black MatchScore.loss true]]
    playersByRank := [0, 1]
    playedRounds := 1 }

/-- The tournament `recordedOneGame` with the result of the game reversed:
player 1 had white and won. -/
def recordedOneGameReversed : Tournament :=
  { players :=
      [playerWith [Match.mk 1 Color.black MatchScore.loss true],
       playerWith [Match.mk 0 Color.white MatchScore.win true]]
    playersByRank := [0, 1]
    playedRounds := 1 }

/-- The replay of `recordedOneGame` when the engine finds no pairing: both
players have their recorded match and the winner has the points of a win. -/
def replayedOneGame : ReplayState :=
  { tournament :=
      { players :=
          [Player.mk [Match.mk 1 Color.white MatchScore.win true] 10 0,
           Player.mk [Match.mk 0 Color.black MatchScore.loss true] 0 0]
        playersByRank := [0, 1]
        playedRounds := 1 }
    out :=
      [Event.roundHeader "t" 1,
       Event.invoke { players := [Player.mk [] 0 0, Player.mk [] 0 0],
                      playersByRank := [0, 1], playedRounds := 0 },
       Event.noValidPairing 1, Event.blank] }

/-- The replay of `recordedWithBye` after its round when the engine proposes
the recorded pairing: nothing but the round header is written. -/
def replayedWithBye : ReplayState :=
  { tournament :=
      { players :=
          [Player.mk [Match.mk 1 Color.white MatchScore.win true] 10 0,
           Player.mk [Match.mk 0 Color.black MatchScore.loss true] 0 0,
           Player.mk [Match.mk 2 Color.noColor MatchScore.win true] 10 0]
        playersByRank := [0, 1, 2]
        playedRounds := 1 }
    out :=
      [Event.roundHeader "t" 1,
       Event.invoke { players := [Player.mk [] 0 0, Player.mk [] 0 0, Player.mk [] 0 0],
                      playersByRank := [0, 1, 2], playedRounds := 0 }] }

/-- A recorded two-round tournament of four players: 0-1 and 2-3 in the
first round, 0-2 and 3-1 in the second. -/
def recordedTwoRounds : Tournament :=
  { players :=
      [playerWith [Match.mk 1 Color.white MatchScore.win true,
                   Match.mk 2 Color.white MatchScore.draw true],
       playerWith [Match.mk 0 Color.black MatchScore.loss true,
                   Match.mk 3 Color.black MatchScore.win true],
       playerWith [Match.mk 3 Color.white MatchScore.win true,
                   Match.mk 0 Color.black MatchScore.draw true],
       playerWith [Match.mk 2 Color.black MatchScore.loss true,
                   Match.mk 1 Color.white MatchScore.loss true]]
    playersByRank := [0, 1, 2, 3]
    playedRounds := 2 }

/-- The replay of `recordedTwoRounds` after its first round when the engine
finds no pairing. -/
def replayedFirstRound : ReplayState :=
  { tournament :=
      { players :=
          [Player.mk [Match.mk 1 Color.white MatchScore.win true] 10 0,
           Player.mk [Match.mk 0 Color.black MatchScore.loss true] 0 0,
           Player.mk [Match.mk 3 Color.white MatchScore.win true] 10 0,
           Player.mk [Match.mk 2 Color.black MatchScore.loss true] 0 0]
        playersByRank := [0, 1, 2, 3]
        playedRounds := 1 }
    out :=
      [Event.roundHeader "t" 1,
       Event.invoke
         { players := [Player.mk [] 0 0, Player.mk [] 0 0, Player.mk [] 0 0, Player.mk [] 0 0],
           playersByRank := [0, 1, 2, 3], playedRounds := 0 },
       Event.noValidPairing 1, Event.blank] }

/-- A recorded one-round tournament of three players: player 0 (white) beat
player 1, and player 2 had a requested half-point bye, which did not take
part in the pairing. -/
def recordedWithRequestedBye : Tournament :=
  { players :=
      [playerWith [Match.mk 1 Color.white MatchScore.win true],
       playerWith [Match.mk 0 Color.black MatchScore.loss true],
       playerWith [Match.mk 2 Color.noColor MatchScore.draw false]]
    playersByRank := [0, 1, 2]
    playedRounds := 1 }

/-- A recorded one-round tournament without symmetric twins: the record of
player 0 names player 1, that of player 1 names player 2 and that of player 2
names player 0. -/
def recordedAsymmetric : Tournament :=
  { players :=
      [playerWith [Match.mk 1 Color.white MatchScore.win true],
       playerWith [Match.mk 2 Color.white MatchScore.win true],
       playerWith [Match.mk 0 Color.white MatchScore.win true]]
    playersByRank := [0, 1, 2]
    playedRounds := 1 }

/-- A recorded one-round tournament of two players in which the record of
player 0 names an opponent, 7, that is not a player. -/
def recordedOpponentOutOfRange : Tournament :=
  { players :=
      [playerWith [Match.mk 7 Color.white MatchScore.win true],
       playerWith [Match.mk 0 Color.black MatchScore.loss true]]
    playersByRank := [0, 1]
    playedRounds := 1 }

/-- An engine for `recordedTwoRounds`: in the first round it proposes the
recorded pairing, in the second round it swaps the opponents of players 0
and 3 (recorded: 0-2 and 3-1; proposed: 0-1 and 3-2). -/
def swappingEngine (t : Tournament) : Option (List Pairing) :=
  if t.playedRounds = 0 then
    some [Pairing.mk 0 1 Color.white, Pairing.mk 2 3 Color.white]
  else
    some [Pairing.mk 0 1 Color.white, Pairing.mk 3 2 Color.white]

/-- Collaborators that keep the rank order, store no derived data, score a
win 10, a draw 5 and a loss 0, leave the provided list in emission order and
let the engine answer `engine`. -/
def plainCollaborators (engine : Tournament → Option (List Pairing)) : Collaborators :=
  { rankOrder := fun t => t.playersByRank
    playerData := fun _ _ => 0
    getPoints := fun s =>
      match s with
      | MatchScore.win => 10
      | MatchScore.draw => 5
      | MatchScore.loss => 0
    computeMatching := engine
    sortResults := fun matching _ => matching }

/-! ## The comparator loop: claims C1 to C5 -/
theorem findIncorrect_acc (orig : Tournament) (r : Nat) (cand : List Pairing) :
    ∀ kept provided : List Pairing,
      findIncorrect orig r cand (kept, provided) =
        (findIncorrect orig r cand ([], [])).map fun x => (kept ++ x.1, provided ++ x.2) := by
  induction cand with
  | nil => intro kept provided; simp [findIncorrect]
  | cons e rest ih =>
    intro kept provided
    simp only [findIncorrect]
    cases hw : matchAt orig e.white r with
    | none => simp
    | some wm =>
      simp only
      by_cases hm : wm.opponent = e.black
      · simp only [hm, if_true]
        exact ih kept provided
      · simp only [hm, if_false]
        cases hb : matchAt orig e.black r with
        | none => simp
        | some bm =>
          simp only
          rw [ih (kept ++ [e])]
          conv_rhs => rw [ih ([] ++ [e])]
          cases findIncorrect orig r rest ([], []) with
          | none => simp
          | some x =>
            simp only [Option.map_some', List.nil_append, List.append_assoc, Option.some.injEq,
              Prod.mk.injEq, true_and]
            by_cases h1 : e.white ≤ wm.opponent <;> by_cases h2 : e.black < bm.opponent <;>
              simp [h1, h2]

theorem findIncorrect_all_match (orig : Tournament) (r : Nat) (cand : List Pairing)
    (h : ∀ e ∈ cand, ∃ m, matchAt orig e.white r = some m ∧ m.opponent = e.black)
    (acc : List Pairing × List Pairing) :
    findIncorrect orig r cand acc = some acc := by
  induction cand with
  | nil => simp [findIncorrect]
  | cons e rest ih =>
    obtain ⟨m, hm, ho⟩ := h e (List.mem_cons_self _ _)
    obtain ⟨kept, provided⟩ := acc
    simp only [findIncorrect, hm, ho, if_true]
    exact ih fun e he => h e (List.mem_cons_of_mem _ he)


theorem findIncorrect_append (orig : Tournament) (r : Nat) (xs ys : List Pairing) :
    ∀ acc : List Pairing × List Pairing,
      findIncorrect orig r (xs ++ ys) acc =
        (findIncorrect orig r xs acc).bind (findIncorrect orig r ys) := by
  induction xs with
  | nil => intro acc; simp [findIncorrect]
  | cons e rest ih =>
    intro acc
    obtain ⟨kept, provided⟩ := acc
    simp only [List.cons_append, findIncorrect]
    cases matchAt orig e.white r with
    | none => simp
    | some wm =>
      simp only
      by_cases hm : wm.opponent = e.black
      · simp only [hm, if_true]
        exact ih _
      · simp only [hm, if_false]
        cases matchAt orig e.black r with
        | none => simp
        | some bm => exact ih _

/-- C1 (no-mismatch case): when every edge `(white, black)` of the engine's
list has `black` as the recorded opponent of `white` in the round, the
comparator loop ends with the list of kept entries empty and the provided
list empty, and the block that follows writes nothing: no table header and
no row. -/
theorem C1_no_mismatch_writes_no_table (c : Collaborators)
    (originalTournament t : Tournament) (correctMatching : List Pairing)
    (h : ∀ e ∈ correctMatching, ∃ m,
      matchAt originalTournament e.white t.playedRounds = some m ∧ m.opponent = e.black) :
    findIncorrect originalTournament t.playedRounds correctMatching ([], []) = some ([], []) ∧
      compareOutcome c originalTournament t (some correctMatching) = some [] := by
  have hf := findIncorrect_all_match originalTournament t.playedRounds correctMatching h ([], [])
  refine ⟨hf, ?_⟩
  simp [compareOutcome, hf, outputIncorrect]

/-- Witness of C1: the engine returns the recorded pairing of the three-player
round (game 0-1 and the bye of player 2). -/
theorem C1_no_mismatch_writes_no_table_witness :
    findIncorrect recordedWithBye 0
        [Pairing.mk 0 1 Color.white, Pairing.mk 2 2 Color.noColor] ([], []) = some ([], []) ∧
      compareOutcome (plainCollaborators fun _ => none) recordedWithBye
        (initialState recordedWithBye).tournament
        (some [Pairing.mk 0 1 Color.white, Pairing.mk 2 2 Color.noColor]) = some [] :=
  C1_no_mismatch_writes_no_table (plainCollaborators fun _ => none) recordedWithBye
    (initialState recordedWithBye).tournament
    [Pairing.mk 0 1 Color.white, Pairing.mk 2 2 Color.noColor] (by decide)

/-- C2 (aligned columns) evaluated where it fails.  In `recordedWithBye`
(symmetric round: 0 played 1, 2 had the bye) the engine's complete pairing
`(0,2), (1,1)` keeps both of its edges but yields a single provided entry,
`(0,1)`: the recorded bye of the black player 2 is never emitted.  The table
loop then reads a second provided entry that does not exist, whatever the one
entry is, and `check` has no defined result. -/
theorem C2_provided_shorter_than_correct :
    symmetricRound recordedWithBye 0 = true ∧
      completePairing [Pairing.mk 0 2 Color.white, Pairing.mk 1 1 Color.noColor] 3 = true ∧
      findIncorrect recordedWithBye 0
          [Pairing.mk 0 2 Color.white, Pairing.mk 1 1 Color.noColor] ([], []) =
        some ([Pairing.mk 0 2 Color.white, Pairing.mk 1 1 Color.noColor],
          [Pairing.mk 0 1 Color.white]) ∧
      (∀ p : Pairing,
        tableRows [Pairing.mk 0 2 Color.white, Pairing.mk 1 1 Color.noColor] [p] = none) ∧
      check
          (plainCollaborators fun _ =>
            some [Pairing.mk 0 2 Color.white, Pairing.mk 1 1 Color.noColor])
          recordedWithBye "t" false = none := by
  refine ⟨by decide, by decide, by decide, ?_, by decide⟩
  intro p
  simp [tableRows]

/-- C3 (exactly-once surfacing) evaluated where it fails, on the symmetric
round of `recordedWithBye` (0 played 1, 2 had the bye).  With the complete
pairing `(0,2), (1,1)` the edge `(0,2)` is a mismatch and the recorded edge
of its black player, the bye `(2,2)`, occurs zero times in the provided list.
With the complete pairing `(1,2), (0,0)` the edge `(0,0)` is a mismatch and
the recorded edge `0-1` of its player occurs twice. -/
theorem C3_recorded_edge_missing_or_doubled :
    symmetricRound recordedWithBye 0 = true ∧
    (completePairing [Pairing.mk 0 2 Color.white, Pairing.mk 1 1 Color.noColor] 3 = true ∧
      ∃ kept provided,
        findIncorrect recordedWithBye 0
          [Pairing.mk 0 2 Color.white, Pairing.mk 1 1 Color.noColor] ([], []) =
            some (kept, provided) ∧
        Pairing.mk 0 2 Color.white ∈ kept ∧
        matchAt recordedWithBye 2 0 = some (Match.mk 2 Color.noColor MatchScore.win true) ∧
        provided.countP (Pairing.sameEdge (Pairing.mk 2 2 Color.noColor)) = 0) ∧
    (completePairing [Pairing.mk 1 2 Color.white, Pairing.mk 0 0 Color.noColor] 3 = true ∧
      ∃ kept provided,
        findIncorrect recordedWithBye 0
          [Pairing.mk 1 2 Color.white, Pairing.mk 0 0 Color.noColor] ([], []) =
            some (kept, provided) ∧
        Pairing.mk 0 0 Color.noColor ∈ kept ∧
        matchAt recordedWithBye 0 0 = some (Match.mk 1 Color.white MatchScore.win true) ∧
        provided.countP (Pairing.sameEdge (Pairing.mk 0 1 Color.white)) = 2) := by
  refine ⟨by decide, ⟨by decide, _, _, rfl, by decide, by decide, by decide⟩,
    ⟨by decide, _, _, rfl, by decide, by decide, by decide⟩⟩

/-- C4 (bye self-loop) evaluated where it fails.  In `recordedWithBye`
player 0 played player 1 (and 1 played 0).  When the engine gives the bye to
player 0, in the list `(1,2), (0,0)`, the provided list is `(0,1), (0,1)`:
two entries for the edge `0-1`, both emitted from the edge `(0,0)`, whose
white and black player are the same. -/
theorem C4_wrong_bye_emitted_twice :
    matchAt recordedWithBye 0 0 = some (Match.mk 1 Color.white MatchScore.win true) ∧
    matchAt recordedWithBye 1 0 = some (Match.mk 0 Color.black MatchScore.loss true) ∧
    findIncorrect recordedWithBye 0
        [Pairing.mk 1 2 Color.white, Pairing.mk 0 0 Color.noColor] ([], []) =
      some ([Pairing.mk 1 2 Color.white, Pairing.mk 0 0 Color.noColor],
        [Pairing.mk 0 1 Color.white, Pairing.mk 0 1 Color.white]) ∧
    findIncorrect recordedWithBye 0 [Pairing.mk 0 0 Color.noColor] ([], []) =
      some ([Pairing.mk 0 0 Color.noColor],
        [Pairing.mk 0 1 Color.white, Pairing.mk 0 1 Color.white]) ∧
    [Pairing.mk 0 1 Color.white, Pairing.mk 0 1 Color.white].countP
      (Pairing.sameEdge (Pairing.mk 0 1 Color.white)) = 2 := by
  refine ⟨by decide, by decide, by decide, by decide, by decide⟩

/-- C5 (edge dedup): let `A, B, C, D` be pairwise distinct with `A < C` and
`B < D`, let the recorded opponent of `A` be `C` and that of `B` be `D`, and
let `(A, B)` be the only edge of the engine's list that does not match the
record.  Then the comparator keeps exactly that edge and the provided list
is `(A, C), (B, D)`: two entries, each edge occurring exactly once, also when
edges are counted as unordered pairs. -/
theorem C5_edge_dedup (originalTournament : Tournament) (round A B C D : Nat)
    (color : Color) (before after : List Pairing) (mA mB : Match)
    (hdistinct : [A, B, C, D].Nodup) (hAC : A < C) (hBD : B < D)
    (hA : matchAt originalTournament A round = some mA) (hAC2 : mA.opponent = C)
    (hB : matchAt originalTournament B round = some mB) (hBD2 : mB.opponent = D)
    (hbefore : ∀ e ∈ before, ∃ m,
      matchAt originalTournament e.white round = some m ∧ m.opponent = e.black)
    (hafter : ∀ e ∈ after, ∃ m,
      matchAt originalTournament e.white round = some m ∧ m.opponent = e.black) :
    ∃ provided,
      findIncorrect originalTournament round (before ++ Pairing.mk A B color :: after) ([], []) =
          some ([Pairing.mk A B color], provided) ∧
        provided = [Pairing.mk A C mA.color, Pairing.mk B D mB.color] ∧
        provided.length = 2 ∧
        provided.countP (Pairing.sameEdge (Pairing.mk A C mA.color)) = 1 ∧
        provided.countP (Pairing.sameEdge (Pairing.mk B D mB.color)) = 1 := by
  have hCB : ¬ C = B := by
    intro h
    subst h
    simp at hdistinct
  have hAB : ¬ A = B := by
    intro h
    subst h
    simp at hdistinct
  have hAD : ¬ A = D := by
    intro h
    subst h
    simp at hdistinct
  refine ⟨_, ?_, rfl, rfl, ?_, ?_⟩
  · rw [findIncorrect_append, findIncorrect_all_match _ _ _ hbefore]
    simp only [Option.some_bind, findIncorrect, hA, hB, hAC2, hBD2, hCB, if_false,
      Nat.le_of_lt hAC, hBD, if_true, List.nil_append]
    rw [findIncorrect_all_match _ _ _ hafter]
    rfl
  · simp [List.countP_cons, Pairing.sameEdge, hAB, hAD]
  · have hBA : ¬ B = A := fun h => hAB h.symm
    have hBC : ¬ B = C := fun h => hCB h.symm
    simp [List.countP_cons, Pairing.sameEdge, hBA, hBC]

/-- Witness of C5: players `A = 0`, `B = 1`, `C = 2`, `D = 3` in a round
where 0 played 2 and 1 played 3, the engine proposing `(0, 1)`. -/
theorem C5_edge_dedup_witness :
    ∃ provided,
      findIncorrect
          { players :=
              [playerWith [Match.mk 2 Color.white MatchScore.win true],
               playerWith [Match.mk 3 Color.white MatchScore.win true],
               playerWith [Match.mk 0 Color.black MatchScore.loss true],
               playerWith [Match.mk 1 Color.black MatchScore.loss true]]
            playersByRank := [0, 1, 2, 3]
            playedRounds := 1 }
          0 ([] ++ Pairing.mk 0 1 Color.white :: []) ([], []) =
          some ([Pairing.mk 0 1 Color.white], provided) ∧
        provided = [Pairing.mk 0 2 Color.white, Pairing.mk 1 3 Color.white] ∧
        provided.length = 2 ∧
        provided.countP (Pairing.sameEdge (Pairing.mk 0 2 Color.white)) = 1 ∧
        provided.countP (Pairing.sameEdge (Pairing.mk 1 3 Color.white)) = 1 :=
  C5_edge_dedup _ 0 0 1 2 3 Color.white [] []
    (Match.mk 2 Color.white MatchScore.win true) (Match.mk 3 Color.white MatchScore.win true)
    (by decide) (by decide) (by decide) rfl rfl rfl rfl (by simp) (by simp)

/-! ## The loops over the rank order -/

theorem length_setDerived (f : Nat → Nat) :
    ∀ (ps : List Player) (start : Nat), (setDerived f start ps).length = ps.length := by
  intro ps
  induction ps with
  | nil => intro start; rfl
  | cons p ps ih => intro start; simp [setDerived, ih]

theorem getElem?_setDerived (f : Nat → Nat) :
    ∀ (ps : List Player) (start j : Nat),
      (setDerived f start ps)[j]? =
        (ps[j]?).map fun p => { p with derived := f (start + j) } := by
  intro ps
  induction ps with
  | nil => intro start j; simp [setDerived]
  | cons p ps ih =>
    intro start j
    cases j with
    | zero => simp [setDerived]
    | succ j =>
      simp only [setDerived, List.getElem?_cons_succ, ih]
      have : start + 1 + j = start + (j + 1) := by omega
      rw [this]

theorem addByes_length (orig : Tournament) (r : Nat) :
    ∀ (order : List Nat) (players players2 : List Player),
      addByes orig r order players = some players2 → players2.length = players.length := by
  intro order
  induction order with
  | nil => intro players players2 h; simp [addByes] at h; rw [h]
  | cons i rest ih =>
    intro players players2 h
    simp only [addByes] at h
    split at h
    · split at h
      · rw [ih _ _ h, List.length_set]
      · exact ih _ _ h
    · exact absurd h (by simp)

theorem addByes_matchAt (orig : Tournament) (r : Nat) :
    ∀ (order : List Nat) (players players2 : List Player),
      addByes orig r order players = some players2 →
      ∀ i ∈ order, ∃ m, matchAt orig i r = some m := by
  intro order
  induction order with
  | nil => intro players players2 _ i hi; simp at hi
  | cons i0 rest ih =>
    intro players players2 h i hi
    simp only [addByes] at h
    split at h
    · rename_i player m hp hm
      rcases List.mem_cons.1 hi with rfl | hi
      · exact ⟨m, hm⟩
      · split at h
        · exact ih _ _ h i hi
        · exact ih _ _ h i hi
    · exact absurd h (by simp)

theorem addByes_getElem? (orig : Tournament) (r : Nat) :
    ∀ (order : List Nat) (players players2 : List Player),
      addByes orig r order players = some players2 → order.Nodup →
      ∀ (j : Nat) (p : Player), players[j]? = some p →
        players2[j]? = some (if j ∈ order then withBye orig r j p else p) := by
  intro order
  induction order with
  | nil =>
    intro players players2 h _ j p hj
    simp only [addByes, Option.some.injEq] at h
    subst h
    simpa using hj
  | cons i rest ih =>
    intro players players2 h hnd j p hj
    have hi : i ∉ rest := (List.nodup_cons.1 hnd).1
    have hrest : rest.Nodup := (List.nodup_cons.1 hnd).2
    simp only [addByes] at h
    split at h
    · rename_i player m hp hm
      have hilt : i < players.length := (List.getElem?_eq_some.1 hp).1
      by_cases hji : j = i
      · subst hji
        have hpp : p = player := by
          rw [hp] at hj
          exact (Option.some.inj hj).symm
        subst hpp
        split at h
        · rename_i hflag
          have := ih _ _ h hrest j _
            (by rw [List.getElem?_set, if_pos rfl, if_pos hilt])
          rw [this]
          simp [hi, withBye, hm, hflag]
        · rename_i hflag
          have := ih _ _ h hrest j _ hj
          rw [this]
          simp [hi, withBye, hm, hflag]
      · split at h
        · have := ih _ _ h hrest j p
            (by rw [List.getElem?_set_ne (Ne.symm hji)]; exact hj)
          rw [this]
          simp [hji]
        · have := ih _ _ h hrest j p hj
          rw [this]
          simp [hji]
    · exact absurd h (by simp)

theorem addByes_isSome (orig : Tournament) (r : Nat) :
    ∀ (order : List Nat) (players : List Player),
      (∀ i ∈ order, i < players.length) →
      (∀ i ∈ order, ∃ m, matchAt orig i r = some m) →
      ∃ players2, addByes orig r order players = some players2 := by
  intro order
  induction order with
  | nil => intro players _ _; exact ⟨players, rfl⟩
  | cons i rest ih =>
    intro players hlt hm
    obtain ⟨m, hmi⟩ := hm i (List.mem_cons_self _ _)
    have hilt := hlt i (List.mem_cons_self _ _)
    have hp : players[i]? = some players[i] := List.getElem?_eq_getElem hilt
    simp only [addByes, hp, hmi]
    split
    · exact ih _ (fun k hk => by
        rw [List.length_set]; exact hlt k (List.mem_cons_of_mem _ hk))
        (fun k hk => hm k (List.mem_cons_of_mem _ hk))
    · exact ih _ (fun k hk => hlt k (List.mem_cons_of_mem _ hk))
        (fun k hk => hm k (List.mem_cons_of_mem _ hk))

theorem addResults_length (c : Collaborators) (orig : Tournament) (r : Nat) :
    ∀ (order : List Nat) (players players2 : List Player),
      addResults c orig r order players = some players2 →
      players2.length = players.length := by
  intro order
  induction order with
  | nil => intro players players2 h; simp [addResults] at h; rw [h]
  | cons i rest ih =>
    intro players players2 h
    simp only [addResults] at h
    split at h
    · rw [ih _ _ h, List.length_set]
    · exact absurd h (by simp)

theorem addResults_getElem? (c : Collaborators) (orig : Tournament) (r : Nat) :
    ∀ (order : List Nat) (players players2 : List Player),
      addResults c orig r order players = some players2 → order.Nodup →
      ∀ (j : Nat) (p : Player), players[j]? = some p →
        players2[j]? = some (if j ∈ order then withResult c orig r j p else p) := by
  intro order
  induction order with
  | nil =>
    intro players players2 h _ j p hj
    simp only [addResults, Option.some.injEq] at h
    subst h
    simpa using hj
  | cons i rest ih =>
    intro players players2 h hnd j p hj
    have hi : i ∉ rest := (List.nodup_cons.1 hnd).1
    have hrest : rest.Nodup := (List.nodup_cons.1 hnd).2
    simp only [addResults] at h
    split at h
    · rename_i player m hp hm
      have hilt : i < players.length := (List.getElem?_eq_some.1 hp).1
      by_cases hji : j = i
      · subst hji
        have hpp : p = player := by
          rw [hp] at hj
          exact (Option.some.inj hj).symm
        subst hpp
        have := ih _ _ h hrest j _
          (by rw [List.getElem?_set, if_pos rfl, if_pos hilt])
        rw [this]
        simp [hi, withResult, hm]
      · have := ih _ _ h hrest j p
          (by rw [List.getElem?_set_ne (Ne.symm hji)]; exact hj)
        rw [this]
        simp [hji]
    · exact absurd h (by simp)

theorem addResults_isSome (c : Collaborators) (orig : Tournament) (r : Nat) :
    ∀ (order : List Nat) (players : List Player),
      (∀ i ∈ order, i < players.length) →
      (∀ i ∈ order, ∃ m, matchAt orig i r = some m) →
      ∃ players2, addResults c orig r order players = some players2 := by
  intro order
  induction order with
  | nil => intro players _ _; exact ⟨players, rfl⟩
  | cons i rest ih =>
    intro players hlt hm
    obtain ⟨m, hmi⟩ := hm i (List.mem_cons_self _ _)
    have hilt := hlt i (List.mem_cons_self _ _)
    have hp : players[i]? = some players[i] := List.getElem?_eq_getElem hilt
    simp only [addResults, hp, hmi]
    exact ih _ (fun k hk => by
      rw [List.length_set]; exact hlt k (List.mem_cons_of_mem _ hk))
      (fun k hk => hm k (List.mem_cons_of_mem _ hk))

/-! ## One round of the replay -/

theorem matchAt_eq (t : Tournament) (j r : Nat) (op : Player)
    (h : t.players[j]? = some op) : matchAt t j r = op.matches_[r]? := by
  simp [matchAt, h]

theorem beforeInvoke_eq_some (c : Collaborators) (orig t snap : Tournament)
    (h : beforeInvoke c orig t = some snap) :
    ∃ players, addByes orig t.playedRounds t.playersByRank t.players = some players ∧
      snap = computePlayerData c (updateRanks c { t with players := players }) := by
  simp only [beforeInvoke] at h
  split at h
  · rename_i players hp
    exact ⟨players, hp, (Option.some.inj h).symm⟩
  · exact absurd h (by simp)

theorem afterInvoke_eq_some (c : Collaborators) (orig t t2 : Tournament)
    (h : afterInvoke c orig t = some t2) :
    ∃ players, addResults c orig t.playedRounds t.playersByRank t.players = some players ∧
      t2 = { t with players := players } := by
  simp only [afterInvoke] at h
  split at h
  · rename_i players hp
    exact ⟨players, hp, (Option.some.inj h).symm⟩
  · exact absurd h (by simp)

theorem beforeInvoke_playedRounds (c : Collaborators) (orig t snap : Tournament)
    (h : beforeInvoke c orig t = some snap) : snap.playedRounds = t.playedRounds := by
  obtain ⟨players, _, rfl⟩ := beforeInvoke_eq_some c orig t snap h
  rfl

theorem afterInvoke_playedRounds (c : Collaborators) (orig t t2 : Tournament)
    (h : afterInvoke c orig t = some t2) : t2.playedRounds = t.playedRounds := by
  obtain ⟨players, _, rfl⟩ := afterInvoke_eq_some c orig t t2 h
  rfl

theorem initialState_replayedTo (c : Collaborators) (orig : Tournament)
    (hr : RanksEveryPlayer c orig) :
    ReplayedTo c orig 0 (initialState orig).tournament := by
  refine ⟨rfl, by simp [initialState], hr.1, ?_⟩
  intro j p op hp _
  simp only [initialState, List.getElem?_map, Option.map_eq_some'] at hp
  obtain ⟨q, _, rfl⟩ := hp
  simp [pointsOf]

theorem beforeInvoke_readyFor (c : Collaborators) (orig : Tournament) (k : Nat)
    (t snap : Tournament) (hr : RanksEveryPlayer c orig) (hinv : ReplayedTo c orig k t)
    (h : beforeInvoke c orig t = some snap) : ReadyFor c orig k snap := by
  obtain ⟨hk, hlen, hperm, hpl⟩ := hinv
  obtain ⟨players, hab, rfl⟩ := beforeInvoke_eq_some c orig t snap h
  have hlen2 := addByes_length orig _ _ _ _ hab
  refine ⟨hk, ?_, ?_, ?_⟩
  · simp only [computePlayerData, updateRanks, length_setDerived]
    rw [hlen2, hlen]
  · exact (hr.2 _).trans hperm
  · intro j p op hp hop
    simp only [computePlayerData, updateRanks, getElem?_setDerived,
      Option.map_eq_some'] at hp
    obtain ⟨q, hq, rfl⟩ := hp
    have hjlt : j < orig.players.length := (List.getElem?_eq_some.1 hop).1
    have hjmem : j ∈ t.playersByRank := by rw [hperm.mem_iff, List.mem_range]; exact hjlt
    have hjt : t.players[j]? = some t.players[j] :=
      List.getElem?_eq_getElem (by rw [hlen]; exact hjlt)
    obtain ⟨m, hm⟩ := addByes_matchAt orig _ _ _ _ hab j hjmem
    have hq2 := addByes_getElem? orig _ _ _ _ hab
      (hperm.nodup_iff.2 (List.nodup_range _)) j _ hjt
    rw [hq, if_pos hjmem] at hq2
    have hq3 := Option.some.inj hq2
    obtain ⟨_, hm1, hs1⟩ := hpl j _ op hjt hop
    rw [hk] at hm
    have hmo : op.matches_[k]? = some m := by
      rw [← matchAt_eq orig j k op hop]; exact hm
    refine ⟨m, hmo, ?_, ?_⟩
    · subst hq3
      rw [hk]
      simp only [withBye, hm]
      split
      · simp [hm1]
      · simp [hm1]
    · subst hq3
      rw [hk]
      simp only [withBye, hm]
      split
      · simpa using hs1
      · simpa using hs1

theorem beforeInvoke_isSome (c : Collaborators) (orig : Tournament) (k : Nat)
    (t : Tournament) (hrounds : HasRounds orig) (hk : k < orig.playedRounds)
    (hinv : ReplayedTo c orig k t) : ∃ snap, beforeInvoke c orig t = some snap := by
  obtain ⟨hk2, hlen, hperm, _⟩ := hinv
  have hdef := addByes_isSome orig t.playedRounds t.playersByRank t.players
    (fun i hi => by
      rw [hperm.mem_iff, List.mem_range] at hi
      rw [hlen]; exact hi)
    (fun i hi => by
      rw [hperm.mem_iff, List.mem_range] at hi
      have hop : orig.players[i]? = some orig.players[i] := List.getElem?_eq_getElem hi
      have hmem : orig.players[i] ∈ orig.players := List.getElem_mem hi
      have hl := hrounds _ hmem
      rw [matchAt_eq orig i _ _ hop, hk2]
      exact ⟨_, List.getElem?_eq_getElem (by omega)⟩)
  obtain ⟨players, hp⟩ := hdef
  exact ⟨computePlayerData c (updateRanks c { t with players := players }), by
    simp [beforeInvoke, hp]⟩

theorem afterInvoke_replayedTo (c : Collaborators) (orig : Tournament) (k : Nat)
    (snap t2 : Tournament) (hready : ReadyFor c orig k snap)
    (h : afterInvoke c orig snap = some t2) :
    ReplayedTo c orig (k + 1) { t2 with playedRounds := t2.playedRounds + 1 } := by
  obtain ⟨hk, hlen, hperm, hpl⟩ := hready
  obtain ⟨players, har, rfl⟩ := afterInvoke_eq_some c orig snap t2 h
  have hlen2 := addResults_length c orig _ _ _ _ har
  refine ⟨by simp [hk], by simp [hlen2, hlen], hperm, ?_⟩
  intro j p op hp hop
  simp only at hp
  have hjlt : j < orig.players.length := (List.getElem?_eq_some.1 hop).1
  have hjmem : j ∈ snap.playersByRank := by rw [hperm.mem_iff, List.mem_range]; exact hjlt
  have hjt : snap.players[j]? = some snap.players[j] :=
    List.getElem?_eq_getElem (by rw [hlen]; exact hjlt)
  obtain ⟨m, hmo, hm1, hs1⟩ := hpl j _ op hjt hop
  have hq2 := addResults_getElem? c orig _ _ _ _ har
    (hperm.nodup_iff.2 (List.nodup_range _)) j _ hjt
  rw [hp, if_pos hjmem] at hq2
  have hq3 := Option.some.inj hq2
  have hm : matchAt orig j k = some m := by rw [matchAt_eq orig j k op hop]; exact hmo
  have htake : op.matches_.take (k + 1) = op.matches_.take k ++ [m] := by
    rw [List.take_succ, hmo]; rfl
  subst hq3
  rw [hk]
  simp only [withResult, hm, htake]
  refine ⟨(List.getElem?_eq_some.1 hmo).1, ?_, ?_⟩
  · rw [hm1]
    cases hflag : m.participatedInPairing <;> simp
  · rw [hs1]
    simp [pointsOf]

theorem afterInvoke_isSome (c : Collaborators) (orig : Tournament) (k : Nat)
    (snap : Tournament) (hready : ReadyFor c orig k snap) :
    ∃ t2, afterInvoke c orig snap = some t2 := by
  obtain ⟨hk, hlen, hperm, hpl⟩ := hready
  have hdef := addResults_isSome c orig snap.playedRounds snap.playersByRank snap.players
    (fun i hi => by
      rw [hperm.mem_iff, List.mem_range] at hi
      rw [hlen]; exact hi)
    (fun i hi => by
      rw [hperm.mem_iff, List.mem_range] at hi
      have hop : orig.players[i]? = some orig.players[i] := List.getElem?_eq_getElem hi
      have hjt : snap.players[i]? = some snap.players[i] :=
        List.getElem?_eq_getElem (by rw [hlen]; exact hi)
      obtain ⟨m, hmo, _, _⟩ := hpl i _ _ hjt hop
      rw [matchAt_eq orig i _ _ hop, hk]
      exact ⟨m, hmo⟩)
  obtain ⟨players, hp⟩ := hdef
  exact ⟨{ snap with players := players }, by simp [afterInvoke, hp]⟩

/-! ## The loop over the rounds -/

theorem roundLoop_succ_front (c : Collaborators) (orig : Tournament) (fn : String)
    (cl : Bool) (fuel : Nat) (s : ReplayState) :
    roundLoop c orig fn cl (fuel + 1) s =
      (loopStep c orig fn cl s).bind (roundLoop c orig fn cl fuel) := by
  simp only [roundLoop, loopStep]
  split
  · cases roundBody c orig fn cl s <;> simp
  · cases fuel <;> simp [roundLoop, *]

theorem roundLoop_succ (c : Collaborators) (orig : Tournament) (fn : String) (cl : Bool) :
    ∀ (fuel : Nat) (s : ReplayState),
      roundLoop c orig fn cl (fuel + 1) s =
        (roundLoop c orig fn cl fuel s).bind (loopStep c orig fn cl) := by
  intro fuel
  induction fuel with
  | zero =>
    intro s
    rw [roundLoop_succ_front]
    simp only [roundLoop, Option.some_bind]
    cases loopStep c orig fn cl s <;> rfl
  | succ fuel ih =>
    intro s
    rw [roundLoop_succ_front, roundLoop_succ_front c orig fn cl fuel s]
    cases loopStep c orig fn cl s with
    | none => rfl
    | some s1 =>
      simp only [Option.some_bind]
      rw [ih s1]

theorem stateAfter_zero (c : Collaborators) (orig : Tournament) (fn : String) (cl : Bool) :
    stateAfter c orig fn cl 0 = some (initialState orig) := rfl

theorem stateAfter_succ (c : Collaborators) (orig : Tournament) (fn : String) (cl : Bool)
    (r : Nat) :
    stateAfter c orig fn cl (r + 1) =
      (stateAfter c orig fn cl r).bind (loopStep c orig fn cl) :=
  roundLoop_succ c orig fn cl r (initialState orig)

theorem roundBody_eq_some (c : Collaborators) (orig : Tournament) (fn : String) (cl : Bool)
    (s s1 : ReplayState) (h : roundBody c orig fn cl s = some s1) :
    ∃ t report t2, beforeInvoke c orig s.tournament = some t ∧
      compareOutcome c orig t (c.computeMatching t) = some report ∧
      afterInvoke c orig t = some t2 ∧
      s1 = { tournament := t2
             out := s.out ++ roundHeaders fn cl t.playedRounds ++ [Event.invoke t] ++ report } := by
  simp only [roundBody] at h
  split at h
  · exact absurd h (by simp)
  · rename_i t ht
    split at h
    · exact absurd h (by simp)
    · rename_i report hrep
      split at h
      · exact absurd h (by simp)
      · rename_i t2 ht2
        exact ⟨t, report, t2, ht, hrep, ht2, (Option.some.inj h).symm⟩

theorem roundBody_of_parts (c : Collaborators) (orig : Tournament) (fn : String) (cl : Bool)
    (s : ReplayState) (t t2 : Tournament) (report : List Event)
    (ht : beforeInvoke c orig s.tournament = some t)
    (hrep : compareOutcome c orig t (c.computeMatching t) = some report)
    (ht2 : afterInvoke c orig t = some t2) :
    roundBody c orig fn cl s =
      some { tournament := t2
             out := s.out ++ roundHeaders fn cl t.playedRounds ++ [Event.invoke t] ++ report } := by
  simp [roundBody, ht, hrep, ht2]

/-- A step of the loop from a state whose round counter is below the number
of played rounds: the body ran and the counter was incremented. -/
theorem loopStep_eq_some (c : Collaborators) (orig : Tournament) (fn : String) (cl : Bool)
    (s s2 : ReplayState) (hlt : s.tournament.playedRounds < orig.playedRounds)
    (h : loopStep c orig fn cl s = some s2) :
    ∃ t report t2, beforeInvoke c orig s.tournament = some t ∧
      compareOutcome c orig t (c.computeMatching t) = some report ∧
      afterInvoke c orig t = some t2 ∧
      s2 = { tournament := { t2 with playedRounds := t2.playedRounds + 1 }
             out := s.out ++ roundHeaders fn cl t.playedRounds ++ [Event.invoke t] ++ report } := by
  simp only [loopStep, if_pos hlt, Option.map_eq_some'] at h
  obtain ⟨s1, hs1, rfl⟩ := h
  obtain ⟨t, report, t2, ht, hrep, ht2, rfl⟩ := roundBody_eq_some c orig fn cl s s1 hs1
  exact ⟨t, report, t2, ht, hrep, ht2, rfl⟩

theorem stateAfter_playedRounds (c : Collaborators) (orig : Tournament) (fn : String)
    (cl : Bool) :
    ∀ (r : Nat) (s : ReplayState), r ≤ orig.playedRounds →
      stateAfter c orig fn cl r = some s → s.tournament.playedRounds = r := by
  intro r
  induction r with
  | zero =>
    intro s _ h
    rw [stateAfter_zero] at h
    rw [← Option.some.inj h]
    rfl
  | succ r ih =>
    intro s hr h
    rw [stateAfter_succ] at h
    obtain ⟨s0, hs0, hstep⟩ := Option.bind_eq_some.1 h
    have h0 := ih s0 (by omega) hs0
    obtain ⟨t, report, t2, ht, _, ht2, rfl⟩ :=
      loopStep_eq_some c orig fn cl s0 s (by omega) hstep
    simp only
    rw [afterInvoke_playedRounds c orig t t2 ht2, beforeInvoke_playedRounds c orig _ t ht, h0]

theorem stateAfter_replayedTo (c : Collaborators) (orig : Tournament) (fn : String)
    (cl : Bool) (hr : RanksEveryPlayer c orig) :
    ∀ (r : Nat) (s : ReplayState), r ≤ orig.playedRounds →
      stateAfter c orig fn cl r = some s → ReplayedTo c orig r s.tournament := by
  intro r
  induction r with
  | zero =>
    intro s _ h
    rw [stateAfter_zero] at h
    rw [← Option.some.inj h]
    exact initialState_replayedTo c orig hr
  | succ r ih =>
    intro s hle h
    rw [stateAfter_succ] at h
    obtain ⟨s0, hs0, hstep⟩ := Option.bind_eq_some.1 h
    have h0 := ih s0 (by omega) hs0
    obtain ⟨t, report, t2, ht, _, ht2, rfl⟩ :=
      loopStep_eq_some c orig fn cl s0 s (by rw [h0.1]; omega) hstep
    exact afterInvoke_replayedTo c orig r t t2
      (beforeInvoke_readyFor c orig r _ t hr h0 ht) ht2

theorem snapshotAt_eq_some (c : Collaborators) (orig : Tournament) (fn : String)
    (cl : Bool) (r : Nat) (t : Tournament) (h : snapshotAt c orig fn cl r = some t) :
    ∃ s, stateAfter c orig fn cl r = some s ∧ beforeInvoke c orig s.tournament = some t := by
  simp only [snapshotAt] at h
  split at h
  · rename_i s hs
    exact ⟨s, hs, h⟩
  · exact absurd h (by simp)

theorem snapshotAt_of_state (c : Collaborators) (orig : Tournament) (fn : String)
    (cl : Bool) (r : Nat) (s : ReplayState) (h : stateAfter c orig fn cl r = some s) :
    snapshotAt c orig fn cl r = beforeInvoke c orig s.tournament := by
  simp [snapshotAt, h]

theorem snapshotAt_readyFor (c : Collaborators) (orig : Tournament) (fn : String)
    (cl : Bool) (hr : RanksEveryPlayer c orig) (r : Nat) (t : Tournament)
    (hle : r ≤ orig.playedRounds) (h : snapshotAt c orig fn cl r = some t) :
    ReadyFor c orig r t := by
  obtain ⟨s, hs, ht⟩ := snapshotAt_eq_some c orig fn cl r t h
  exact beforeInvoke_readyFor c orig r _ t hr (stateAfter_replayedTo c orig fn cl hr r s hle hs) ht

theorem beforeInvoke_congr (c c2 : Collaborators) (orig t : Tournament)
    (h1 : c2.rankOrder = c.rankOrder) (h2 : c2.playerData = c.playerData) :
    beforeInvoke c2 orig t = beforeInvoke c orig t := by
  simp only [beforeInvoke, computePlayerData, updateRanks, h1, h2]

theorem addResults_congr (c c2 : Collaborators) (orig : Tournament) (r : Nat)
    (h : c2.getPoints = c.getPoints) :
    ∀ (order : List Nat) (players : List Player),
      addResults c2 orig r order players = addResults c orig r order players := by
  intro order
  induction order with
  | nil => intro players; rfl
  | cons i rest ih =>
    intro players
    simp only [addResults, h, ih]

theorem afterInvoke_congr (c c2 : Collaborators) (orig t : Tournament)
    (h : c2.getPoints = c.getPoints) :
    afterInvoke c2 orig t = afterInvoke c orig t := by
  simp only [afterInvoke, addResults_congr c c2 orig _ h]

/-- The replay tournament after any number of iterations is the same for two
sets of collaborators that differ only in the engine and in the sorting of
the provided list. -/
theorem stateAfter_tournament_congr (c c2 : Collaborators) (orig : Tournament)
    (fn : String) (cl : Bool) (h1 : c2.rankOrder = c.rankOrder)
    (h2 : c2.playerData = c.playerData) (h3 : c2.getPoints = c.getPoints) :
    ∀ (r : Nat) (s s2 : ReplayState), stateAfter c orig fn cl r = some s →
      stateAfter c2 orig fn cl r = some s2 → s2.tournament = s.tournament := by
  intro r
  induction r with
  | zero =>
    intro s s2 h h2
    rw [stateAfter_zero] at h h2
    rw [← Option.some.inj h, ← Option.some.inj h2]
  | succ r ih =>
    intro s s2 h hb
    rw [stateAfter_succ] at h hb
    obtain ⟨s0, hs0, hstep⟩ := Option.bind_eq_some.1 h
    obtain ⟨s0b, hs0b, hstepb⟩ := Option.bind_eq_some.1 hb
    have h0 := ih s0 s0b hs0 hs0b
    by_cases hlt : s0.tournament.playedRounds < orig.playedRounds
    · obtain ⟨t, report, t2, ht, _, ht2, rfl⟩ := loopStep_eq_some c orig fn cl s0 s hlt hstep
      obtain ⟨tb, reportb, t2b, htb, _, ht2b, rfl⟩ :=
        loopStep_eq_some c2 orig fn cl s0b s2 (by rw [h0]; exact hlt) hstepb
      rw [h0, beforeInvoke_congr c c2 orig _ h1 h2, ht] at htb
      have htt := Option.some.inj htb
      subst htt
      rw [afterInvoke_congr c c2 orig _ h3, ht2] at ht2b
      have htt2 := Option.some.inj ht2b
      subst htt2
      rfl
    · simp only [loopStep, if_neg hlt, Option.some.injEq] at hstep
      have hltb : ¬ s0b.tournament.playedRounds < orig.playedRounds := by rw [h0]; exact hlt
      simp only [loopStep, if_neg hltb, Option.some.injEq] at hstepb
      rw [← hstep, ← hstepb]
      exact h0

/-! ## The replay state: claims C6, C8 and C10 -/

/-- C6 (replay view at invocation): assume every recorded player has a match
for each played round and the rank order lists every player once.  When the
run reaches round `r`, `check` calls the engine, and in the tournament it
passes every player's match list is the first `r` recorded matches in round
order (`r` entries), followed by the recorded match `m` of round `r` exactly
when `m.participatedInPairing = false`.  Hence every entry of that list is a
recorded match of a round below `r`, or is the round-`r` match and did not
take part in the pairing: no round-`r` match that took part in the pairing
and no match of a later round is in the list. -/
theorem C6_replay_view_at_invocation (c : Collaborators) (originalTournament : Tournament)
    (filename : String) (checklistStream : Bool) (r : Nat) (s : ReplayState)
    (hrounds : HasRounds originalTournament)
    (hranks : RanksEveryPlayer c originalTournament)
    (hr : r < originalTournament.playedRounds)
    (hrun : stateAfter c originalTournament filename checklistStream r = some s) :
    ∃ snapshot,
      snapshotAt c originalTournament filename checklistStream r = some snapshot ∧
      ∀ (j : Nat) (op : Player), originalTournament.players[j]? = some op →
        ∃ p m, snapshot.players[j]? = some p ∧ op.matches_[r]? = some m ∧
          (op.matches_.take r).length = r ∧
          p.matches_ =
            op.matches_.take r ++ (if m.participatedInPairing = false then [m] else []) ∧
          ∀ (i : Nat) (x : Match), p.matches_[i]? = some x →
            (i < r ∧ op.matches_[i]? = some x) ∨
              (i = r ∧ x = m ∧ m.participatedInPairing = false) := by
  have hinv := stateAfter_replayedTo c originalTournament filename checklistStream hranks r s
    (Nat.le_of_lt hr) hrun
  obtain ⟨snapshot, hsnap⟩ :=
    beforeInvoke_isSome c originalTournament r s.tournament hrounds hr hinv
  have hready := beforeInvoke_readyFor c originalTournament r _ snapshot hranks hinv hsnap
  refine ⟨snapshot, by rw [snapshotAt_of_state _ _ _ _ _ _ hrun]; exact hsnap, ?_⟩
  intro j op hop
  obtain ⟨_, hlen, _, hpl⟩ := hready
  have hjlt : j < originalTournament.players.length := (List.getElem?_eq_some.1 hop).1
  have hjs : snapshot.players[j]? = some snapshot.players[j] :=
    List.getElem?_eq_getElem (by rw [hlen]; exact hjlt)
  obtain ⟨m, hmo, hm1, _⟩ := hpl j _ op hjs hop
  have hrl : r < op.matches_.length := (List.getElem?_eq_some.1 hmo).1
  have htl : (op.matches_.take r).length = r := by
    rw [List.length_take]; omega
  refine ⟨_, m, hjs, hmo, htl, hm1, ?_⟩
  intro i x hx
  rw [hm1] at hx
  by_cases hir : i < r
  · left
    rw [List.getElem?_append_left (by rw [htl]; exact hir), List.getElem?_take_of_lt hir] at hx
    exact ⟨hir, hx⟩
  · right
    rw [List.getElem?_append_right (by rw [htl]; omega), htl] at hx
    by_cases hflag : m.participatedInPairing = false
    · rw [if_pos hflag] at hx
      have hz : i - r = 0 := by
        by_contra hne
        obtain ⟨k, hk⟩ := Nat.exists_eq_succ_of_ne_zero hne
        rw [hk] at hx
        simp at hx
      rw [hz] at hx
      simp only [List.getElem?_cons_zero, Option.some.injEq] at hx
      exact ⟨by omega, hx.symm, hflag⟩
    · rw [if_neg hflag] at hx
      simp at hx

/-- Witness of C6: the second round (`r = 1`) of `recordedTwoRounds`, the
engine having found no pairing in the first round. -/
theorem C6_replay_view_at_invocation_witness :
    ∃ snapshot,
      snapshotAt (plainCollaborators fun _ => none) recordedTwoRounds "t" false 1 =
        some snapshot ∧
      ∀ (j : Nat) (op : Player), recordedTwoRounds.players[j]? = some op →
        ∃ p m, snapshot.players[j]? = some p ∧ op.matches_[1]? = some m ∧
          (op.matches_.take 1).length = 1 ∧
          p.matches_ =
            op.matches_.take 1 ++ (if m.participatedInPairing = false then [m] else []) ∧
          ∀ (i : Nat) (x : Match), p.matches_[i]? = some x →
            (i < 1 ∧ op.matches_[i]? = some x) ∨
              (i = 1 ∧ x = m ∧ m.participatedInPairing = false) :=
  C6_replay_view_at_invocation (plainCollaborators fun _ => none) recordedTwoRounds "t" false 1
    replayedFirstRound (by unfold HasRounds; decide)
    ⟨by decide, fun _ => List.Perm.refl _⟩ (by decide) (by decide)

/-- C8 (score accumulation and failure resilience): whatever the engine
answered in the rounds `0 .. r`, once the results of round `r` are folded in
every player's replay match list is the first `r + 1` recorded matches in
round order, one entry per round, and the player's
`scoreWithoutAcceleration` is the sum of `getPoints` over these matches.
The replay tournament entering round `r + 1` is the same for every engine. -/
theorem C8_scores_follow_the_record (c : Collaborators) (originalTournament : Tournament)
    (filename : String) (checklistStream : Bool) (r : Nat) (s : ReplayState)
    (hranks : RanksEveryPlayer c originalTournament)
    (hr : r < originalTournament.playedRounds)
    (hrun : stateAfter c originalTournament filename checklistStream (r + 1) = some s) :
    (∀ (j : Nat) (op : Player), originalTournament.players[j]? = some op →
      ∃ p, s.tournament.players[j]? = some p ∧
        p.matches_ = op.matches_.take (r + 1) ∧ p.matches_.length = r + 1 ∧
        p.scoreWithoutAcceleration =
          ((op.matches_.take (r + 1)).map fun m => c.getPoints m.matchScore).sum) ∧
    ∀ (engine : Tournament → Option (List Pairing)) (s2 : ReplayState),
      stateAfter { c with computeMatching := engine } originalTournament filename
        checklistStream (r + 1) = some s2 →
      s2.tournament = s.tournament := by
  have hinv := stateAfter_replayedTo c originalTournament filename checklistStream hranks
    (r + 1) s hr hrun
  constructor
  · intro j op hop
    obtain ⟨_, hlen, _, hpl⟩ := hinv
    have hjlt : j < originalTournament.players.length := (List.getElem?_eq_some.1 hop).1
    have hjs : s.tournament.players[j]? = some s.tournament.players[j] :=
      List.getElem?_eq_getElem (by rw [hlen]; exact hjlt)
    obtain ⟨hle, hm, hsc⟩ := hpl j _ op hjs hop
    refine ⟨_, hjs, hm, ?_, hsc⟩
    rw [hm, List.length_take]
    omega
  · intro engine s2 hs2
    exact stateAfter_tournament_congr c { c with computeMatching := engine }
      originalTournament filename checklistStream rfl rfl rfl (r + 1) s s2 hrun hs2

/-- Witness of C8: round 0 of `recordedWithBye` with an engine that pairs 0
with 1 and gives 2 the bye; the run ends in `replayedWithBye`. -/
theorem C8_scores_follow_the_record_witness :
    (∀ (j : Nat) (op : Player), recordedWithBye.players[j]? = some op →
      ∃ p, replayedWithBye.tournament.players[j]? = some p ∧
        p.matches_ = op.matches_.take (0 + 1) ∧ p.matches_.length = 0 + 1 ∧
        p.scoreWithoutAcceleration =
          ((op.matches_.take (0 + 1)).map fun m =>
            (plainCollaborators fun _ =>
              some [Pairing.mk 0 1 Color.white, Pairing.mk 2 2 Color.noColor]).getPoints
              m.matchScore).sum) ∧
    ∀ (engine : Tournament → Option (List Pairing)) (s2 : ReplayState),
      stateAfter
        { (plainCollaborators fun _ =>
            some [Pairing.mk 0 1 Color.white, Pairing.mk 2 2 Color.noColor]) with
          computeMatching := engine }
        recordedWithBye "t" false (0 + 1) = some s2 →
      s2.tournament = replayedWithBye.tournament :=
  C8_scores_follow_the_record
    (plainCollaborators fun _ =>
      some [Pairing.mk 0 1 Color.white, Pairing.mk 2 2 Color.noColor])
    recordedWithBye "t" false 0 replayedWithBye ⟨by decide, fun _ => List.Perm.refl _⟩
    (by decide) (by decide)

/-- C10 (end of run equals the record): the replay starts with every
player's match list empty and every `scoreWithoutAcceleration` equal to `0`;
and when `check` finishes on a recorded tournament in which every player has
exactly `playedRounds` matches (the rank order listing every player once),
the replay tournament has `playedRounds` equal to the recorded value and
every player's match list equal to the recorded one. -/
theorem C10_end_of_run_equals_record (c : Collaborators) (originalTournament : Tournament)
    (filename : String) (checklistStream : Bool) (s : ReplayState)
    (hexact : ∀ p ∈ originalTournament.players,
      p.matches_.length = originalTournament.playedRounds)
    (hranks : RanksEveryPlayer c originalTournament)
    (hrun : check c originalTournament filename checklistStream = some s) :
    ((initialState originalTournament).tournament.players.length =
        originalTournament.players.length ∧
      ∀ p ∈ (initialState originalTournament).tournament.players,
        p.matches_ = [] ∧ p.scoreWithoutAcceleration = 0) ∧
    s.tournament.playedRounds = originalTournament.playedRounds ∧
    s.tournament.players.length = originalTournament.players.length ∧
    ∀ (j : Nat) (op : Player), originalTournament.players[j]? = some op →
      ∃ p, s.tournament.players[j]? = some p ∧ p.matches_ = op.matches_ := by
  have hinv := stateAfter_replayedTo c originalTournament filename checklistStream hranks
    originalTournament.playedRounds s (Nat.le_refl _) hrun
  obtain ⟨hk, hlen, _, hpl⟩ := hinv
  refine ⟨⟨by simp [initialState], ?_⟩, hk, hlen, ?_⟩
  · intro p hp
    simp only [initialState, List.mem_map] at hp
    obtain ⟨q, _, rfl⟩ := hp
    exact ⟨rfl, rfl⟩
  · intro j op hop
    have hjlt : j < originalTournament.players.length := (List.getElem?_eq_some.1 hop).1
    have hjs : s.tournament.players[j]? = some s.tournament.players[j] :=
      List.getElem?_eq_getElem (by rw [hlen]; exact hjlt)
    obtain ⟨_, hm, _⟩ := hpl j _ op hjs hop
    have hmem : op ∈ originalTournament.players := List.getElem?_mem hop
    refine ⟨_, hjs, ?_⟩
    rw [hm, List.take_of_length_le (Nat.le_of_eq (hexact op hmem))]

/-! ## Causality: claim C7 -/

theorem getElem?_both (a b : Tournament) (hlen : a.players.length = b.players.length)
    (j : Nat) :
    (a.players[j]? = none ∧ b.players[j]? = none) ∨
      ∃ p q, a.players[j]? = some p ∧ b.players[j]? = some q := by
  by_cases hj : j < a.players.length
  · exact Or.inr ⟨_, _, List.getElem?_eq_getElem hj,
      List.getElem?_eq_getElem (by rw [← hlen]; exact hj)⟩
  · exact Or.inl ⟨List.getElem?_eq_none (by omega),
      List.getElem?_eq_none (by rw [← hlen]; omega)⟩

theorem byeAgree_refl (o : Option Match) : ByeAgree o o := by
  cases o with
  | none => trivial
  | some m => exact ⟨rfl, fun _ => rfl⟩

theorem matchAt_agree_lt (r : Nat) (a b : Tournament) (h : AgreeUpTo r a b) (j k : Nat)
    (hk : k < r) : matchAt a j k = matchAt b j k := by
  obtain ⟨_, _, hlen, hpl⟩ := h
  rcases getElem?_both a b hlen j with ⟨ha, hb⟩ | ⟨p, q, ha, hb⟩
  · simp [matchAt, ha, hb]
  · obtain ⟨_, htake, _⟩ := hpl j p q ha hb
    rw [matchAt_eq a j k p ha, matchAt_eq b j k q hb,
      ← List.getElem?_take_of_lt hk, htake, List.getElem?_take_of_lt hk]

theorem matchAt_agree_bye (r : Nat) (a b : Tournament) (h : AgreeUpTo r a b) (j : Nat) :
    ByeAgree (matchAt a j r) (matchAt b j r) := by
  obtain ⟨_, _, hlen, hpl⟩ := h
  rcases getElem?_both a b hlen j with ⟨ha, hb⟩ | ⟨p, q, ha, hb⟩
  · simp [matchAt, ha, hb, ByeAgree]
  · obtain ⟨_, _, hbye⟩ := hpl j p q ha hb
    rw [matchAt_eq a j r p ha, matchAt_eq b j r q hb]
    exact hbye

theorem addByes_congr (a b : Tournament) (k : Nat)
    (h : ∀ j, ByeAgree (matchAt a j k) (matchAt b j k)) :
    ∀ (order : List Nat) (players : List Player),
      addByes a k order players = addByes b k order players := by
  intro order
  induction order with
  | nil => intro players; rfl
  | cons i rest ih =>
    intro players
    have hi := h i
    simp only [addByes]
    cases hp : players[i]? with
    | none => rfl
    | some player =>
      cases ha : matchAt a i k with
      | none =>
        cases hb : matchAt b i k with
        | none => rfl
        | some mb => rw [ha, hb] at hi; exact absurd hi (by simp [ByeAgree])
      | some ma =>
        cases hb : matchAt b i k with
        | none => rw [ha, hb] at hi; exact absurd hi (by simp [ByeAgree])
        | some mb =>
          rw [ha, hb] at hi
          obtain ⟨hflag, heq⟩ := hi
          simp only
          by_cases hf : ma.participatedInPairing = false
          · have hmb : mb.participatedInPairing = false := by rw [← hflag]; exact hf
            rw [if_pos hf, if_pos hmb, heq hf]
            exact ih _
          · have hmb : ¬ mb.participatedInPairing = false := by rw [← hflag]; exact hf
            rw [if_neg hf, if_neg hmb]
            exact ih _

theorem addResults_congr_record (c : Collaborators) (a b : Tournament) (k : Nat)
    (h : ∀ j, matchAt a j k = matchAt b j k) :
    ∀ (order : List Nat) (players : List Player),
      addResults c a k order players = addResults c b k order players := by
  intro order
  induction order with
  | nil => intro players; rfl
  | cons i rest ih =>
    intro players
    simp only [addResults, h, ih]

theorem findIncorrect_congr_record (a b : Tournament) (k : Nat)
    (h : ∀ j, matchAt a j k = matchAt b j k) :
    ∀ (matching : List Pairing) (acc : List Pairing × List Pairing),
      findIncorrect a k matching acc = findIncorrect b k matching acc := by
  intro matching
  induction matching with
  | nil => intro acc; rfl
  | cons e rest ih =>
    intro acc
    obtain ⟨kept, provided⟩ := acc
    simp only [findIncorrect, h, ih]

theorem initialState_agree (r : Nat) (a b : Tournament) (h : AgreeUpTo r a b) :
    initialState a = initialState b := by
  obtain ⟨_, hrank, hlen, hpl⟩ := h
  have hplayers :
      (a.players.map fun player =>
          { player with matches_ := [], scoreWithoutAcceleration := 0 }) =
        b.players.map fun player =>
          { player with matches_ := [], scoreWithoutAcceleration := 0 } := by
    apply List.ext_getElem?
    intro j
    rcases getElem?_both a b hlen j with ⟨ha, hb⟩ | ⟨p, q, ha, hb⟩
    · simp [ha, hb]
    · obtain ⟨hd, _, _⟩ := hpl j p q ha hb
      simp [ha, hb, hd]
  simp only [initialState, hplayers, hrank]

theorem loopStep_agree (c : Collaborators) (r : Nat) (a b : Tournament) (fn : String)
    (cl : Bool) (h : AgreeUpTo r a b) (s : ReplayState) (hs : s.tournament.playedRounds < r) :
    loopStep c a fn cl s = loopStep c b fn cl s := by
  have hm : ∀ j, matchAt a j s.tournament.playedRounds = matchAt b j s.tournament.playedRounds :=
    fun j => matchAt_agree_lt r a b h j _ hs
  have hbefore : beforeInvoke c a s.tournament = beforeInvoke c b s.tournament := by
    simp only [beforeInvoke]
    rw [addByes_congr a b _ (fun j => by rw [hm j]; exact byeAgree_refl _)]
  have hbody : roundBody c a fn cl s = roundBody c b fn cl s := by
    simp only [roundBody, hbefore]
    cases hb : beforeInvoke c b s.tournament with
    | none => rfl
    | some t =>
      have hpr : t.playedRounds = s.tournament.playedRounds :=
        beforeInvoke_playedRounds c b _ t hb
      have hcmp : ∀ o, compareOutcome c a t o = compareOutcome c b t o := by
        intro o
        cases o with
        | none => rfl
        | some matching =>
          simp only [compareOutcome]
          rw [findIncorrect_congr_record a b _ (by rw [hpr]; exact hm)]
      have hafter : afterInvoke c a t = afterInvoke c b t := by
        simp only [afterInvoke]
        rw [addResults_congr_record c a b _ (by rw [hpr]; exact hm)]
      simp only [hcmp, hafter]
  simp only [loopStep, hbody, h.1]

theorem stateAfter_agree (c : Collaborators) (r : Nat) (a b : Tournament) (fn : String)
    (cl : Bool) (h : AgreeUpTo r a b) (hr : r ≤ a.playedRounds) :
    ∀ k, k ≤ r → stateAfter c a fn cl k = stateAfter c b fn cl k := by
  intro k
  induction k with
  | zero =>
    intro _
    rw [stateAfter_zero, stateAfter_zero, initialState_agree r a b h]
  | succ k ih =>
    intro hk
    rw [stateAfter_succ, stateAfter_succ, ih (by omega)]
    cases hs : stateAfter c b fn cl k with
    | none => rfl
    | some s =>
      have hpr : s.tournament.playedRounds = k :=
        stateAfter_playedRounds c b fn cl k s (by rw [← h.1]; omega) hs
      simp only [Option.some_bind]
      exact loopStep_agree c r a b fn cl h s (by omega)

/-- C7 (causality, two runs): let two recorded tournaments agree on
everything except the opponent, colour and score of round-`r` matches that
took part in the pairing, and except the matches of rounds after `r`.  With
the same deterministic collaborators, the tournament passed to the engine for
round `r` is the same in both runs (and both runs reach that call or neither
does), so the pairing the engine computes for round `r` is the same. -/
theorem C7_causality (c : Collaborators) (a b : Tournament) (filename : String)
    (checklistStream : Bool) (r : Nat) (hagree : AgreeUpTo r a b)
    (hr : r < a.playedRounds) :
    snapshotAt c a filename checklistStream r = snapshotAt c b filename checklistStream r ∧
    (snapshotAt c a filename checklistStream r).map c.computeMatching =
      (snapshotAt c b filename checklistStream r).map c.computeMatching := by
  have hsnap :
      snapshotAt c a filename checklistStream r = snapshotAt c b filename checklistStream r := by
    simp only [snapshotAt]
    rw [stateAfter_agree c r a b filename checklistStream hagree (Nat.le_of_lt hr) r
      (Nat.le_refl _)]
    cases hs : stateAfter c b filename checklistStream r with
    | none => rfl
    | some s =>
      have hpr : s.tournament.playedRounds = r :=
        stateAfter_playedRounds c b filename checklistStream r s
          (by rw [← hagree.1]; omega) hs
      simp only [beforeInvoke]
      rw [addByes_congr a b _ (fun j => by rw [hpr]; exact matchAt_agree_bye r a b hagree j)]
  exact ⟨hsnap, by rw [hsnap]⟩

/-- Witness of C7: `recordedOneGame` and `recordedOneGameReversed` differ only
in the colours and scores of the round-0 game, which took part in the
pairing; the engine is given the same tournament for round 0. -/
theorem C7_causality_witness :
    (snapshotAt (plainCollaborators fun _ => none) recordedOneGame "t" false 0 =
        snapshotAt (plainCollaborators fun _ => none) recordedOneGameReversed "t" false 0 ∧
      (snapshotAt (plainCollaborators fun _ => none) recordedOneGame "t" false 0).map
          (plainCollaborators fun _ => none).computeMatching =
        (snapshotAt (plainCollaborators fun _ => none) recordedOneGameReversed "t" false 0).map
          (plainCollaborators fun _ => none).computeMatching) ∧
    (snapshotAt (plainCollaborators fun _ => none) recordedOneGame "t" false 0).isSome = true :=
  ⟨C7_causality (plainCollaborators fun _ => none) recordedOneGame recordedOneGameReversed
      "t" false 0
      ⟨rfl, rfl, rfl, by
        intro j p q hp hq
        match j with
        | 0 =>
          simp only [recordedOneGame, recordedOneGameReversed, playerWith, List.getElem?_cons_zero,
            Option.some.injEq] at hp hq
          subst hp
          subst hq
          exact ⟨rfl, rfl, rfl, fun h => absurd h (by decide)⟩
        | 1 =>
          simp only [recordedOneGame, recordedOneGameReversed, playerWith,
            List.getElem?_cons_succ, List.getElem?_cons_zero, Option.some.injEq] at hp hq
          subst hp
          subst hq
          exact ⟨rfl, rfl, rfl, fun h => absurd h (by decide)⟩
        | k + 2 =>
          simp [recordedOneGame] at hp⟩
      (by decide),
    by decide⟩

/-- Witness of C10: `check` on `recordedOneGame` with an engine that finds no
pairing ends in `replayedOneGame`. -/
theorem C10_end_of_run_equals_record_witness :
    ((initialState recordedOneGame).tournament.players.length =
        recordedOneGame.players.length ∧
      ∀ p ∈ (initialState recordedOneGame).tournament.players,
        p.matches_ = [] ∧ p.scoreWithoutAcceleration = 0) ∧
    replayedOneGame.tournament.playedRounds = recordedOneGame.playedRounds ∧
    replayedOneGame.tournament.players.length = recordedOneGame.players.length ∧
    ∀ (j : Nat) (op : Player), recordedOneGame.players[j]? = some op →
      ∃ p, replayedOneGame.tournament.players[j]? = some p ∧ p.matches_ = op.matches_ :=
  C10_end_of_run_equals_record (plainCollaborators fun _ => none) recordedOneGame "t" false
    replayedOneGame (by decide) ⟨by decide, fun _ => List.Perm.refl _⟩ (by decide)

/-! ## The run as a whole: claim C9 -/

theorem invocations_append (xs ys : List Event) :
    invocations (xs ++ ys) = invocations xs ++ invocations ys := by
  induction xs with
  | nil => rfl
  | cons e rest ih => cases e <;> simp [invocations, ih]

theorem invocations_roundHeaders (fn : String) (cl : Bool) (r : Nat) :
    invocations (roundHeaders fn cl r) = [] := by
  cases cl <;> rfl

theorem invocations_tableRows :
    ∀ (kept provided : List Pairing) (rows : List Event),
      tableRows kept provided = some rows → invocations rows = [] := by
  intro kept
  induction kept with
  | nil =>
    intro provided rows h
    simp only [tableRows, Option.some.injEq] at h
    rw [← h]
    rfl
  | cons e rest ih =>
    intro provided rows h
    cases provided with
    | nil => simp [tableRows] at h
    | cons p ps =>
      simp only [tableRows] at h
      split at h
      · rename_i rows1 h1
        rw [← Option.some.inj h]
        simp only [tableRowOf, invocations]
        exact ih ps rows1 h1
      · exact absurd h (by simp)

theorem invocations_compareOutcome (c : Collaborators) (orig t : Tournament)
    (o : Option (List Pairing)) (report : List Event)
    (h : compareOutcome c orig t o = some report) : invocations report = [] := by
  cases o with
  | none =>
    simp only [compareOutcome, Option.some.injEq] at h
    rw [← h]
    rfl
  | some matching =>
    simp only [compareOutcome] at h
    split at h
    · rename_i kept provided _
      simp only [outputIncorrect] at h
      split at h
      · rw [← Option.some.inj h]
        rfl
      · split at h
        · rename_i rows hrows
          rw [← Option.some.inj h]
          have := invocations_tableRows _ _ rows hrows
          simp [invocations, invocations_append, this]
        · exact absurd h (by simp)
    · exact absurd h (by simp)

theorem invocations_roundOutput (c : Collaborators) (orig : Tournament) (fn : String)
    (cl : Bool) (r : Nat) :
    invocations (roundOutput c orig fn cl r) = (snapshotAt c orig fn cl r).toList := by
  simp only [roundOutput]
  cases snapshotAt c orig fn cl r with
  | none => rfl
  | some t =>
    have hcall : invocations [Event.invoke t] = [t] := rfl
    have hrest :
        invocations
          (match compareOutcome c orig t (c.computeMatching t) with
           | some report => report
           | none => []) = [] := by
      cases hcmp : compareOutcome c orig t (c.computeMatching t) with
      | none => rfl
      | some report => exact invocations_compareOutcome c orig t _ report hcmp
    rw [invocations_append, invocations_append, invocations_roundHeaders, hcall, hrest]
    rfl

theorem stateAfter_out (c : Collaborators) (orig : Tournament) (fn : String) (cl : Bool) :
    ∀ (r : Nat) (s : ReplayState), r ≤ orig.playedRounds →
      stateAfter c orig fn cl r = some s → s.out = outputUpTo c orig fn cl r := by
  intro r
  induction r with
  | zero =>
    intro s _ h
    rw [stateAfter_zero] at h
    rw [← Option.some.inj h]
    rfl
  | succ r ih =>
    intro s hle h
    rw [stateAfter_succ] at h
    obtain ⟨s0, hs0, hstep⟩ := Option.bind_eq_some.1 h
    have hpr := stateAfter_playedRounds c orig fn cl r s0 (by omega) hs0
    obtain ⟨t, report, t2, ht, hrep, _, rfl⟩ :=
      loopStep_eq_some c orig fn cl s0 s (by omega) hstep
    have htr : t.playedRounds = r := by
      rw [beforeInvoke_playedRounds c orig _ t ht, hpr]
    have hsnap : snapshotAt c orig fn cl r = some t := by
      rw [snapshotAt_of_state _ _ _ _ _ _ hs0]; exact ht
    simp only [outputUpTo, roundOutput, hsnap, hrep, ih s0 (by omega) hs0, htr,
      List.append_assoc]

theorem stateAfter_isSome (c : Collaborators) (orig : Tournament) (fn : String) (cl : Bool)
    (hrounds : HasRounds orig) (hranks : RanksEveryPlayer c orig)
    (hdef : ∀ (r : Nat) (t : Tournament), r < orig.playedRounds →
      snapshotAt c orig fn cl r = some t →
      compareOutcome c orig t (c.computeMatching t) ≠ none) :
    ∀ r, r ≤ orig.playedRounds →
      ∃ s, stateAfter c orig fn cl r = some s ∧
        (r < orig.playedRounds → ∃ t, snapshotAt c orig fn cl r = some t ∧
          t.playedRounds = r) := by
  have hsnap : ∀ (r : Nat) (s : ReplayState), r < orig.playedRounds →
      stateAfter c orig fn cl r = some s →
      ∃ t, snapshotAt c orig fn cl r = some t ∧ t.playedRounds = r := by
    intro r s hr hs
    have hinv := stateAfter_replayedTo c orig fn cl hranks r s (Nat.le_of_lt hr) hs
    obtain ⟨t, ht⟩ := beforeInvoke_isSome c orig r s.tournament hrounds hr hinv
    refine ⟨t, by rw [snapshotAt_of_state _ _ _ _ _ _ hs]; exact ht, ?_⟩
    rw [beforeInvoke_playedRounds c orig _ t ht, hinv.1]
  intro r
  induction r with
  | zero =>
    intro _
    exact ⟨_, stateAfter_zero c orig fn cl, fun h => hsnap 0 _ h (stateAfter_zero c orig fn cl)⟩
  | succ r ih =>
    intro hle
    obtain ⟨s0, hs0, hs0snap⟩ := ih (by omega)
    obtain ⟨t, ht, htr⟩ := hs0snap (by omega)
    have hinv := stateAfter_replayedTo c orig fn cl hranks r s0 (by omega) hs0
    have htb : beforeInvoke c orig s0.tournament = some t := by
      rw [← snapshotAt_of_state _ _ _ _ _ _ hs0]; exact ht
    have hready := beforeInvoke_readyFor c orig r _ t hranks hinv htb
    obtain ⟨t2, ht2⟩ := afterInvoke_isSome c orig r t hready
    cases hcmp : compareOutcome c orig t (c.computeMatching t) with
    | none => exact absurd hcmp (hdef r t (by omega) ht)
    | some report =>
      have hbody := roundBody_of_parts c orig fn cl s0 t t2 report htb hcmp ht2
      have hstep : stateAfter c orig fn cl (r + 1) = some (nextRound
          { tournament := t2
            out :=
              s0.out ++ roundHeaders fn cl t.playedRounds ++ [Event.invoke t] ++ report }) := by
        rw [stateAfter_succ, hs0]
        simp only [Option.some_bind, loopStep]
        rw [if_pos (by rw [hinv.1]; omega), hbody]
        rfl
      exact ⟨_, hstep, fun h => hsnap (r + 1) _ h hstep⟩

theorem map_filterMap_eq_self (f : Nat → Option Tournament) :
    ∀ l : List Nat, (∀ k ∈ l, ∃ t, f k = some t ∧ t.playedRounds = k) →
      (l.filterMap f).map Tournament.playedRounds = l := by
  intro l
  induction l with
  | nil => intro _; rfl
  | cons k rest ih =>
    intro h
    obtain ⟨t, ht, hk⟩ := h k (List.mem_cons_self _ _)
    rw [List.filterMap_cons_some ht, List.map_cons, hk,
      ih fun j hj => h j (List.mem_cons_of_mem _ hj)]

theorem invocations_outputUpTo (c : Collaborators) (orig : Tournament) (fn : String)
    (cl : Bool) :
    ∀ r, invocations (outputUpTo c orig fn cl r) =
      (List.range r).filterMap (snapshotAt c orig fn cl) := by
  intro r
  induction r with
  | zero => rfl
  | succ r ih =>
    rw [outputUpTo, invocations_append, ih, invocations_roundOutput, List.range_succ,
      List.filterMap_append]
    cases h : snapshotAt c orig fn cl r <;> simp [List.filterMap_cons, h]

/-- C9 as stated fails: `check` has no defined result for some engine
outcomes on well-formed recorded tournaments.  On `recordedWithBye` the
complete pairing `(0,2), (1,1)` makes the table loop read past the end of the
provided list; on `recordedOneGame` the pairing `(0,5)` names a player that
does not exist. -/
theorem C9_some_outcomes_have_no_defined_run :
    HasRounds recordedWithBye ∧ HasRounds recordedOneGame ∧
    check
        (plainCollaborators fun _ =>
          some [Pairing.mk 0 2 Color.white, Pairing.mk 1 1 Color.noColor])
        recordedWithBye "t" false = none ∧
    check (plainCollaborators fun _ => some [Pairing.mk 0 5 Color.white])
        recordedOneGame "t" false = none := by
  refine ⟨by unfold HasRounds; decide, by unfold HasRounds; decide, by decide, by decide⟩

/-- C9, amended (`NoValidPairing` is not fatal): let every recorded player
have a match for each played round, let the rank order list every player
once, and let the comparison of every round be defined for what the engine
answers there.  Then `check` runs to completion; it calls the engine exactly
once per round, for the rounds `0 .. n-1` in increasing order; its output is
the output of the rounds one after the other; and a round in which the
engine finds no valid pairing writes its round header (and checklist header),
then `No valid pairing exists for round r+1.` and a blank line, and no
table. -/
theorem C9_no_valid_pairing_is_not_fatal (c : Collaborators)
    (originalTournament : Tournament) (filename : String) (checklistStream : Bool)
    (hrounds : HasRounds originalTournament)
    (hranks : RanksEveryPlayer c originalTournament)
    (hdef : ∀ (r : Nat) (t : Tournament), r < originalTournament.playedRounds →
      snapshotAt c originalTournament filename checklistStream r = some t →
      compareOutcome c originalTournament t (c.computeMatching t) ≠ none) :
    ∃ s, check c originalTournament filename checklistStream = some s ∧
      s.tournament.playedRounds = originalTournament.playedRounds ∧
      (invocations s.out).map Tournament.playedRounds =
        List.range originalTournament.playedRounds ∧
      s.out = outputUpTo c originalTournament filename checklistStream
        originalTournament.playedRounds ∧
      ∀ r, r < originalTournament.playedRounds →
        ∃ t, snapshotAt c originalTournament filename checklistStream r = some t ∧
          (invocations s.out)[r]? = some t ∧
          (c.computeMatching t = none →
            roundOutput c originalTournament filename checklistStream r =
              roundHeaders filename checklistStream r ++
                [Event.invoke t, Event.noValidPairing (r + 1), Event.blank]) := by
  have hall := stateAfter_isSome c originalTournament filename checklistStream hrounds hranks hdef
  obtain ⟨s, hs, _⟩ := hall originalTournament.playedRounds (Nat.le_refl _)
  have hsnaps : ∀ k ∈ List.range originalTournament.playedRounds,
      ∃ t, snapshotAt c originalTournament filename checklistStream k = some t ∧
        t.playedRounds = k := by
    intro k hk
    rw [List.mem_range] at hk
    obtain ⟨_, _, h⟩ := hall k (Nat.le_of_lt hk)
    exact h hk
  have hout := stateAfter_out c originalTournament filename checklistStream _ s
    (Nat.le_refl _) hs
  have hinv : invocations s.out = (List.range originalTournament.playedRounds).filterMap
      (snapshotAt c originalTournament filename checklistStream) := by
    rw [hout, invocations_outputUpTo]
  refine ⟨s, hs, ?_, ?_, hout, ?_⟩
  · exact stateAfter_playedRounds c originalTournament filename checklistStream _ s
      (Nat.le_refl _) hs
  · rw [hinv]
    exact map_filterMap_eq_self _ _ hsnaps
  · intro r hr
    obtain ⟨t, ht, htr⟩ := hsnaps r (List.mem_range.2 hr)
    refine ⟨t, ht, ?_, ?_⟩
    · have hmap := map_filterMap_eq_self _ _ hsnaps
      rw [← hinv] at hmap
      have hlen : (invocations s.out).length = originalTournament.playedRounds := by
        have := congrArg List.length hmap
        simpa using this
      have hget : (invocations s.out)[r]? = some (invocations s.out)[r] :=
        List.getElem?_eq_getElem (by rw [hlen]; exact hr)
      have hmem : (invocations s.out)[r] ∈ (List.range originalTournament.playedRounds).filterMap
          (snapshotAt c originalTournament filename checklistStream) := by
        rw [← hinv]; exact List.getElem_mem _
      obtain ⟨k, _, hk⟩ := List.mem_filterMap.1 hmem
      have hkr : (invocations s.out)[r].playedRounds = r := by
        have h1 : ((invocations s.out).map Tournament.playedRounds)[r]? = some r := by
          rw [hmap]; simp [hr]
        rw [List.getElem?_map, hget] at h1
        exact Option.some.inj h1
      have hkk : k = r := by
        have hkle : k < originalTournament.playedRounds := by
          rename_i hkmem; exact List.mem_range.1 hkmem
        obtain ⟨t2, ht2, ht2r⟩ := hsnaps k (List.mem_range.2 hkle)
        rw [ht2] at hk
        rw [← Option.some.inj hk] at hkr
        omega
      rw [hget, ← hk, hkk, ht]
    · intro hnone
      simp only [roundOutput, ht, hnone, compareOutcome, htr, List.append_assoc,
        List.singleton_append]

/-- Witness of C9: `recordedTwoRounds` with an engine that finds no valid
pairing in either round. -/
theorem C9_no_valid_pairing_is_not_fatal_witness :
    ∃ s, check (plainCollaborators fun _ => none) recordedTwoRounds "t" true = some s ∧
      s.tournament.playedRounds = recordedTwoRounds.playedRounds ∧
      (invocations s.out).map Tournament.playedRounds =
        List.range recordedTwoRounds.playedRounds ∧
      s.out = outputUpTo (plainCollaborators fun _ => none) recordedTwoRounds "t" true
        recordedTwoRounds.playedRounds ∧
      ∀ r, r < recordedTwoRounds.playedRounds →
        ∃ t, snapshotAt (plainCollaborators fun _ => none) recordedTwoRounds "t" true r =
            some t ∧
          (invocations s.out)[r]? = some t ∧
          ((plainCollaborators fun _ => none).computeMatching t = none →
            roundOutput (plainCollaborators fun _ => none) recordedTwoRounds "t" true r =
              roundHeaders "t" true r ++
                [Event.invoke t, Event.noValidPairing (r + 1), Event.blank]) :=
  C9_no_valid_pairing_is_not_fatal (plainCollaborators fun _ => none) recordedTwoRounds "t"
    true (by unfold HasRounds; decide) ⟨by decide, fun _ => List.Perm.refl _⟩
    (fun _ _ _ _ => by simp [plainCollaborators, compareOutcome])

/-- The fuel of `check` is enough: a run of `check` that has a result has
left the loop, and more iterations change nothing. -/
theorem check_exhausts_loop (c : Collaborators) (originalTournament : Tournament)
    (filename : String) (checklistStream : Bool) :
    (∀ s, check c originalTournament filename checklistStream = some s →
      ¬ s.tournament.playedRounds < originalTournament.playedRounds) ∧
    ∀ extra, roundLoop c originalTournament filename checklistStream
        (originalTournament.playedRounds + extra) (initialState originalTournament) =
      check c originalTournament filename checklistStream := by
  have hexit : ∀ s, check c originalTournament filename checklistStream = some s →
      ¬ s.tournament.playedRounds < originalTournament.playedRounds := by
    intro s hs
    have := stateAfter_playedRounds c originalTournament filename checklistStream _ s
      (Nat.le_refl _) hs
    omega
  refine ⟨hexit, ?_⟩
  intro extra
  induction extra with
  | zero => rfl
  | succ k ih =>
    rw [← Nat.add_assoc, roundLoop_succ, ih]
    cases hs : check c originalTournament filename checklistStream with
    | none => rfl
    | some s =>
      simp only [Option.some_bind, loopStep, if_neg (hexit s hs)]

/-! ## The comparator loop in closed form: claims C12, C16 and C18 -/

/-- The comparator loop computes the mismatching edges, in order, and the
concatenation of what the emission rule gives for each of them. -/
theorem findIncorrect_closed_form (orig : Tournament) (r : Nat) :
    ∀ matching : List Pairing, ReadsInRange orig r matching →
      findIncorrect orig r matching ([], []) =
        some (matching.filter (mismatches orig r),
          (matching.filter (mismatches orig r)).flatMap (emitted orig r)) := by
  intro matching
  induction matching with
  | nil => intro _; rfl
  | cons e rest ih =>
    intro h
    obtain ⟨⟨wm, hw⟩, hb⟩ := h e (List.mem_cons_self _ _)
    have hrest : ReadsInRange orig r rest := fun x hx => h x (List.mem_cons_of_mem _ hx)
    simp only [findIncorrect, hw]
    by_cases hm : wm.opponent = e.black
    · have hmis : mismatches orig r e = false := by simp [mismatches, hw, hm]
      simp only [hm, if_true, List.filter_cons, hmis]
      exact ih hrest
    · have hmis : mismatches orig r e = true := by simp [mismatches, hw, hm]
      obtain ⟨bm, hbm⟩ := hb hmis
      simp only [hm, if_false, hbm, List.filter_cons, hmis, if_true, List.flatMap_cons]
      rw [findIncorrect_acc, ih hrest]
      simp only [Option.map_some', List.nil_append, Option.some.injEq, Prod.mk.injEq,
        List.singleton_append, true_and, emitted, emittedWhite, emittedBlack, hw, hbm]
      by_cases h1 : e.white ≤ wm.opponent <;> by_cases h2 : e.black < bm.opponent <;>
        simp [h1, h2]

/-- A defined result of the comparator loop comes from reads in range. -/
theorem readsInRange_of_findIncorrect (orig : Tournament) (r : Nat) :
    ∀ (matching : List Pairing) (acc result : List Pairing × List Pairing),
      findIncorrect orig r matching acc = some result → ReadsInRange orig r matching := by
  intro matching
  induction matching with
  | nil => intro _ _ _ e he; simp at he
  | cons e rest ih =>
    intro acc result h x hx
    obtain ⟨kept, provided⟩ := acc
    simp only [findIncorrect] at h
    cases hw : matchAt orig e.white r with
    | none => rw [hw] at h; exact absurd h (by simp)
    | some wm =>
      rw [hw] at h
      simp only at h
      by_cases hm : wm.opponent = e.black
      · rw [if_pos hm] at h
        rcases List.mem_cons.1 hx with rfl | hx
        · exact ⟨⟨wm, hw⟩, fun hmis => by simp [mismatches, hw, hm] at hmis⟩
        · exact ih _ _ h x hx
      · rw [if_neg hm] at h
        cases hb : matchAt orig e.black r with
        | none => rw [hb] at h; exact absurd h (by simp)
        | some bm =>
          rw [hb] at h
          rcases List.mem_cons.1 hx with rfl | hx
          · exact ⟨⟨wm, hw⟩, fun _ => ⟨bm, hb⟩⟩
          · exact ih _ _ h x hx

/-- C12 (the correct list is an order-preserving filter): when the reads of
the comparator loop are in range, the loop has a result, and the list of
kept entries is the engine's list filtered, in its order and with its
multiplicities, by the test that the recorded opponent of `white` is not
`black`; it is a sublist of the engine's list. -/
theorem C12_correct_list_is_filter (originalTournament : Tournament) (round : Nat)
    (correctMatching : List Pairing)
    (hreads : ReadsInRange originalTournament round correctMatching) :
    ∃ kept provided,
      findIncorrect originalTournament round correctMatching ([], []) =
        some (kept, provided) ∧
      kept = correctMatching.filter (mismatches originalTournament round) ∧
      kept.Sublist correctMatching ∧
      ∀ e, e ∈ kept ↔ e ∈ correctMatching ∧ ∃ whiteMatch,
        matchAt originalTournament e.white round = some whiteMatch ∧
          whiteMatch.opponent ≠ e.black := by
  refine ⟨_, _, findIncorrect_closed_form originalTournament round correctMatching hreads,
    rfl, List.filter_sublist _, ?_⟩
  intro e
  rw [List.mem_filter]
  constructor
  · rintro ⟨he, hmis⟩
    refine ⟨he, ?_⟩
    obtain ⟨⟨wm, hw⟩, _⟩ := hreads e he
    refine ⟨wm, hw, ?_⟩
    simpa [mismatches, hw] using hmis
  · rintro ⟨he, wm, hw, hne⟩
    exact ⟨he, by simp [mismatches, hw, hne]⟩

/-- Witness of C12: the list `(0,2), (1,1)` against `recordedWithBye`, where
both edges are kept, preceded by the matching edge `(0,1)`. -/
theorem C12_correct_list_is_filter_witness :
    ∃ kept provided,
      findIncorrect recordedWithBye 0
          [Pairing.mk 0 1 Color.white, Pairing.mk 0 2 Color.white,
           Pairing.mk 1 1 Color.noColor] ([], []) =
        some (kept, provided) ∧
      kept =
        [Pairing.mk 0 1 Color.white, Pairing.mk 0 2 Color.white,
         Pairing.mk 1 1 Color.noColor].filter (mismatches recordedWithBye 0) ∧
      kept.Sublist
        [Pairing.mk 0 1 Color.white, Pairing.mk 0 2 Color.white,
         Pairing.mk 1 1 Color.noColor] ∧
      ∀ e, e ∈ kept ↔
        e ∈ [Pairing.mk 0 1 Color.white, Pairing.mk 0 2 Color.white,
             Pairing.mk 1 1 Color.noColor] ∧
        ∃ whiteMatch, matchAt recordedWithBye e.white 0 = some whiteMatch ∧
          whiteMatch.opponent ≠ e.black :=
  C12_correct_list_is_filter recordedWithBye 0
    [Pairing.mk 0 1 Color.white, Pairing.mk 0 2 Color.white, Pairing.mk 1 1 Color.noColor]
    (readsInRange_of_findIncorrect recordedWithBye 0 _ ([], [])
      ([Pairing.mk 0 2 Color.white, Pairing.mk 1 1 Color.noColor],
        [Pairing.mk 0 1 Color.white]) (by decide))

/-- C16 (emission rule): when the reads of the comparator loop are in range,
the provided list before sorting is the concatenation, over the mismatching
edges `(white, black)` of the engine's list in its order, of the entry
`(white, actualOpponent white)` exactly when `white ≤ actualOpponent white`,
followed by the entry `(black, actualOpponent black)` exactly when
`black < actualOpponent black`.  In particular a mismatching edge whose white
player has a recorded bye emits that self-loop once, from the white side, and
a recorded bye of the black player emits nothing. -/
theorem C16_emission_rule (originalTournament : Tournament) (round : Nat)
    (correctMatching : List Pairing)
    (hreads : ReadsInRange originalTournament round correctMatching) :
    (∃ kept provided,
      findIncorrect originalTournament round correctMatching ([], []) =
        some (kept, provided) ∧
      provided =
        (correctMatching.filter (mismatches originalTournament round)).flatMap fun e =>
          emittedWhite originalTournament round e ++
            emittedBlack originalTournament round e) ∧
    (∀ (e : Pairing) (whiteMatch : Match),
      matchAt originalTournament e.white round = some whiteMatch →
      emittedWhite originalTournament round e =
        if e.white ≤ whiteMatch.opponent then
          [Pairing.mk e.white whiteMatch.opponent whiteMatch.color]
        else []) ∧
    (∀ (e : Pairing) (blackMatch : Match),
      matchAt originalTournament e.black round = some blackMatch →
      emittedBlack originalTournament round e =
        if e.black < blackMatch.opponent then
          [Pairing.mk e.black blackMatch.opponent blackMatch.color]
        else []) ∧
    (∀ (e : Pairing) (whiteMatch : Match),
      mismatches originalTournament round e = true →
      matchAt originalTournament e.white round = some whiteMatch →
      whiteMatch.opponent = e.white →
      emittedWhite originalTournament round e =
          [Pairing.mk e.white e.white whiteMatch.color] ∧
        (emitted originalTournament round e).countP
          (Pairing.sameEdge (Pairing.mk e.white e.white whiteMatch.color)) = 1) ∧
    (∀ (e : Pairing) (blackMatch : Match),
      matchAt originalTournament e.black round = some blackMatch →
      blackMatch.opponent = e.black →
      emittedBlack originalTournament round e = []) := by
  refine ⟨⟨_, _, findIncorrect_closed_form originalTournament round correctMatching hreads,
    rfl⟩, ?_, ?_, ?_, ?_⟩
  · intro e wm hw
    simp [emittedWhite, hw]
  · intro e bm hb
    simp [emittedBlack, hb]
  · intro e wm hmis hw hbye
    have hne : ¬ e.white = e.black := by
      intro h
      rw [h] at hbye
      simp [mismatches, hw, hbye] at hmis
    have hwhite : emittedWhite originalTournament round e =
        [Pairing.mk e.white e.white wm.color] := by
      simp [emittedWhite, hw, hbye]
    refine ⟨hwhite, ?_⟩
    have hblack : (emittedBlack originalTournament round e).countP
        (Pairing.sameEdge (Pairing.mk e.white e.white wm.color)) = 0 := by
      simp only [emittedBlack]
      cases matchAt originalTournament e.black round with
      | none => rfl
      | some bm =>
        simp only
        split
        · simp [List.countP_cons, Pairing.sameEdge, hne]
        · rfl
    rw [emitted, List.countP_append, hwhite, hblack]
    simp [List.countP_cons, Pairing.sameEdge]
  · intro e bm hb hbye
    simp [emittedBlack, hb, hbye]

/-- Witness of C16: the list `(2,1), (0,0)` against `recordedWithBye`; the
white player 2 of the first edge has the recorded bye. -/
theorem C16_emission_rule_witness :
    ReadsInRange recordedWithBye 0
        [Pairing.mk 2 1 Color.white, Pairing.mk 0 0 Color.noColor] ∧
    ∃ kept provided,
      findIncorrect recordedWithBye 0
          [Pairing.mk 2 1 Color.white, Pairing.mk 0 0 Color.noColor] ([], []) =
        some (kept, provided) ∧
      provided =
        ([Pairing.mk 2 1 Color.white, Pairing.mk 0 0 Color.noColor].filter
          (mismatches recordedWithBye 0)).flatMap fun e =>
            emittedWhite recordedWithBye 0 e ++ emittedBlack recordedWithBye 0 e :=
  ⟨readsInRange_of_findIncorrect recordedWithBye 0 _ ([], [])
      ([Pairing.mk 2 1 Color.white, Pairing.mk 0 0 Color.noColor],
        [Pairing.mk 2 2 Color.noColor, Pairing.mk 0 1 Color.white,
         Pairing.mk 0 1 Color.white]) (by decide),
    (C16_emission_rule recordedWithBye 0
      [Pairing.mk 2 1 Color.white, Pairing.mk 0 0 Color.noColor]
      (readsInRange_of_findIncorrect recordedWithBye 0 _ ([], [])
        ([Pairing.mk 2 1 Color.white, Pairing.mk 0 0 Color.noColor],
          [Pairing.mk 2 2 Color.noColor, Pairing.mk 0 1 Color.white,
           Pairing.mk 0 1 Color.white]) (by decide))).1⟩

theorem symmetricRound_twin (orig : Tournament) (r p : Nat)
    (hsym : symmetricRound orig r = true) (hp : p < orig.players.length) :
    ∃ m twin, matchAt orig p r = some m ∧ matchAt orig m.opponent r = some twin ∧
      twin.opponent = p := by
  simp only [symmetricRound, List.all_eq_true, List.mem_range] at hsym
  have h := hsym p hp
  cases hm : matchAt orig p r with
  | none => simp [hm] at h
  | some m =>
    simp only [hm] at h
    cases ht : matchAt orig m.opponent r with
    | none => simp [ht] at h
    | some twin =>
      simp only [ht, beq_iff_eq] at h
      exact ⟨m, twin, rfl, ht, h⟩

/-- C18 (orientation-independent match test): in a symmetric recorded round,
an edge `(white, black)` of two players is discarded by the comparator
exactly when the reversed edge `(black, white)` is; and when the edge is kept
as a mismatch, the recorded opponent of `black` is not `white`, so what the
black side emits is never an edge between `white` and `black`. -/
theorem C18_match_test_is_orientation_independent (originalTournament : Tournament)
    (round white black : Nat) (color reversedColor : Color)
    (hsym : symmetricRound originalTournament round = true)
    (hw : white < originalTournament.players.length)
    (hb : black < originalTournament.players.length) :
    (mismatches originalTournament round (Pairing.mk white black color) =
      mismatches originalTournament round (Pairing.mk black white reversedColor)) ∧
    (findIncorrect originalTournament round [Pairing.mk white black color] ([], []) =
        some ([], []) ↔
      findIncorrect originalTournament round [Pairing.mk black white reversedColor] ([], []) =
        some ([], [])) ∧
    (mismatches originalTournament round (Pairing.mk white black color) = true →
      ∃ blackMatch, matchAt originalTournament black round = some blackMatch ∧
        blackMatch.opponent ≠ white ∧
        ∀ x ∈ emittedBlack originalTournament round (Pairing.mk white black color),
          Pairing.sameEdge x (Pairing.mk white black color) = false) := by
  obtain ⟨wm, wtwin, hwm, hwt, hwo⟩ :=
    symmetricRound_twin originalTournament round white hsym hw
  obtain ⟨bm, btwin, hbm, hbt, hbo⟩ :=
    symmetricRound_twin originalTournament round black hsym hb
  have hiff : wm.opponent = black ↔ bm.opponent = white := by
    constructor
    · intro h
      rw [h, hbm] at hwt
      rw [Option.some.inj hwt]
      exact hwo
    · intro h
      rw [h, hwm] at hbt
      rw [Option.some.inj hbt]
      exact hbo
  have hmis : mismatches originalTournament round (Pairing.mk white black color) =
      mismatches originalTournament round (Pairing.mk black white reversedColor) := by
    simp only [mismatches, hwm, hbm]
    by_cases h : wm.opponent = black
    · simp [h, hiff.1 h]
    · have h2 : ¬ bm.opponent = white := fun h2 => h (hiff.2 h2)
      simp [h, h2]
  have hreads : ∀ e : Pairing, (e.white = white ∧ e.black = black) ∨
      (e.white = black ∧ e.black = white) → ReadsInRange originalTournament round [e] := by
    intro e he x hx
    rw [List.mem_singleton] at hx
    subst hx
    rcases he with ⟨h1, h2⟩ | ⟨h1, h2⟩
    · rw [h1, h2]; exact ⟨⟨wm, hwm⟩, fun _ => ⟨bm, hbm⟩⟩
    · rw [h1, h2]; exact ⟨⟨bm, hbm⟩, fun _ => ⟨wm, hwm⟩⟩
  have hdiscard : ∀ e : Pairing, (e.white = white ∧ e.black = black) ∨
      (e.white = black ∧ e.black = white) →
      (findIncorrect originalTournament round [e] ([], []) = some ([], []) ↔
        mismatches originalTournament round e = false) := by
    intro e he
    rw [findIncorrect_closed_form originalTournament round [e] (hreads e he)]
    cases hm : mismatches originalTournament round e <;> simp [List.filter_cons, hm]
  refine ⟨hmis, ?_, ?_⟩
  · rw [hdiscard _ (Or.inl ⟨rfl, rfl⟩), hdiscard _ (Or.inr ⟨rfl, rfl⟩), hmis]
  · intro hkept
    have hne : ¬ wm.opponent = black := by
      intro h
      simp [mismatches, hwm, h] at hkept
    have hne2 : ¬ bm.opponent = white := fun h => hne (hiff.2 h)
    refine ⟨bm, hbm, hne2, ?_⟩
    intro x hx
    simp only [emittedBlack, hbm] at hx
    split at hx
    · rename_i hlt
      rw [List.mem_singleton] at hx
      subst hx
      have hne3 : ¬ bm.opponent = black := by omega
      simp [Pairing.sameEdge, hne2, hne3]
    · simp at hx

/-- Witness of C18: players 0 and 2 in the symmetric round of
`recordedWithBye`. -/
theorem C18_match_test_is_orientation_independent_witness :
    (mismatches recordedWithBye 0 (Pairing.mk 0 2 Color.white) =
      mismatches recordedWithBye 0 (Pairing.mk 2 0 Color.black)) ∧
    (findIncorrect recordedWithBye 0 [Pairing.mk 0 2 Color.white] ([], []) =
        some ([], []) ↔
      findIncorrect recordedWithBye 0 [Pairing.mk 2 0 Color.black] ([], []) =
        some ([], [])) ∧
    (mismatches recordedWithBye 0 (Pairing.mk 0 2 Color.white) = true →
      ∃ blackMatch, matchAt recordedWithBye 2 0 = some blackMatch ∧
        blackMatch.opponent ≠ 0 ∧
        ∀ x ∈ emittedBlack recordedWithBye 0 (Pairing.mk 0 2 Color.white),
          Pairing.sameEdge x (Pairing.mk 0 2 Color.white) = false) :=
  C18_match_test_is_orientation_independent recordedWithBye 0 0 2 Color.white Color.black
    (by decide) (by decide) (by decide)

/-! ## The round counter and the running score: claims C11 and C19 -/

/-- C11 as stated fails: in the second round (`r = 1`) of `recordedTwoRounds`
the tournament passed to the engine carries `playedRounds = 1`, not `2`. -/
theorem C11_snapshot_carries_round_index :
    ∃ t, snapshotAt (plainCollaborators fun _ => none) recordedTwoRounds "t" false 1 =
        some t ∧
      t.playedRounds = 1 ∧ t.playedRounds ≠ 1 + 1 := by
  refine ⟨_, rfl, ?_, ?_⟩ <;> decide

/-- C11, amended: in round `r` the tournament passed to the engine carries
`playedRounds = r`; the counter becomes `r + 1` only in the loop header, after
the results of round `r` have been added. -/
theorem C11_played_rounds_at_invocation (c : Collaborators)
    (originalTournament : Tournament) (filename : String) (checklistStream : Bool)
    (r : Nat) (t : Tournament) (hr : r < originalTournament.playedRounds)
    (hsnap : snapshotAt c originalTournament filename checklistStream r = some t) :
    t.playedRounds = r ∧
    ∀ s, stateAfter c originalTournament filename checklistStream (r + 1) = some s →
      s.tournament.playedRounds = r + 1 := by
  obtain ⟨s0, hs0, ht⟩ :=
    snapshotAt_eq_some c originalTournament filename checklistStream r t hsnap
  constructor
  · rw [beforeInvoke_playedRounds c originalTournament _ t ht]
    exact stateAfter_playedRounds c originalTournament filename checklistStream r s0
      (Nat.le_of_lt hr) hs0
  · intro s hs
    exact stateAfter_playedRounds c originalTournament filename checklistStream (r + 1) s hr hs

/-- Witness of C11 (amended): the second round of `recordedTwoRounds`, where
the engine is given the tournament of `replayedFirstRound`. -/
theorem C11_played_rounds_at_invocation_witness :
    replayedFirstRound.tournament.playedRounds = 1 ∧
    ∀ s, stateAfter (plainCollaborators fun _ => none) recordedTwoRounds "t" false (1 + 1) =
        some s →
      s.tournament.playedRounds = 1 + 1 :=
  C11_played_rounds_at_invocation (plainCollaborators fun _ => none) recordedTwoRounds "t"
    false 1 replayedFirstRound.tournament (by decide) (by decide)

theorem pointsOf_append_singleton (c : Collaborators) (ms : List Match) (m : Match) :
    pointsOf c (ms ++ [m]) = pointsOf c ms + c.getPoints m.matchScore := by
  simp [pointsOf]

/-- C19 (the running score lags the bye placeholder): when the run reaches
round `r`, in the tournament passed to the engine every player's
`scoreWithoutAcceleration` is the sum of `getPoints` over the recorded matches
of the rounds `0 .. r-1` only.  This holds also for a player whose round-`r`
match did not take part in the pairing and is already in the replay match
list; the points of the round-`r` match are added after the comparison, once:
the score after the round is the score at the call plus those points. -/
theorem C19_score_lags_bye_placeholder (c : Collaborators)
    (originalTournament : Tournament) (filename : String) (checklistStream : Bool)
    (r : Nat) (s : ReplayState) (hrounds : HasRounds originalTournament)
    (hranks : RanksEveryPlayer c originalTournament)
    (hr : r < originalTournament.playedRounds)
    (hrun : stateAfter c originalTournament filename checklistStream r = some s) :
    ∃ snapshot,
      snapshotAt c originalTournament filename checklistStream r = some snapshot ∧
      ∀ (j : Nat) (op : Player), originalTournament.players[j]? = some op →
        ∃ p m, snapshot.players[j]? = some p ∧ op.matches_[r]? = some m ∧
          p.scoreWithoutAcceleration =
            ((op.matches_.take r).map fun x => c.getPoints x.matchScore).sum ∧
          (m.participatedInPairing = false → p.matches_ = op.matches_.take r ++ [m]) ∧
          ∀ s2, stateAfter c originalTournament filename checklistStream (r + 1) = some s2 →
            ∃ p2, s2.tournament.players[j]? = some p2 ∧
              p2.matches_ = op.matches_.take r ++ [m] ∧
              p2.scoreWithoutAcceleration =
                p.scoreWithoutAcceleration + c.getPoints m.matchScore := by
  have hinv := stateAfter_replayedTo c originalTournament filename checklistStream hranks r s
    (Nat.le_of_lt hr) hrun
  obtain ⟨snapshot, hsnap⟩ :=
    beforeInvoke_isSome c originalTournament r s.tournament hrounds hr hinv
  have hready := beforeInvoke_readyFor c originalTournament r _ snapshot hranks hinv hsnap
  refine ⟨snapshot, by rw [snapshotAt_of_state _ _ _ _ _ _ hrun]; exact hsnap, ?_⟩
  intro j op hop
  obtain ⟨_, hlen, _, hpl⟩ := hready
  have hjlt : j < originalTournament.players.length := (List.getElem?_eq_some.1 hop).1
  have hjs : snapshot.players[j]? = some snapshot.players[j] :=
    List.getElem?_eq_getElem (by rw [hlen]; exact hjlt)
  obtain ⟨m, hmo, hm1, hsc⟩ := hpl j _ op hjs hop
  have htake : op.matches_.take (r + 1) = op.matches_.take r ++ [m] := by
    rw [List.take_succ, hmo]; rfl
  refine ⟨_, m, hjs, hmo, hsc, ?_, ?_⟩
  · intro hflag
    rw [hm1, if_pos hflag]
  · intro s2 hs2
    obtain ⟨_, hlen2, _, hpl2⟩ := stateAfter_replayedTo c originalTournament filename
      checklistStream hranks (r + 1) s2 hr hs2
    have hjs2 : s2.tournament.players[j]? = some s2.tournament.players[j] :=
      List.getElem?_eq_getElem (by rw [hlen2]; exact hjlt)
    obtain ⟨_, hm2, hsc2⟩ := hpl2 j _ op hjs2 hop
    refine ⟨_, hjs2, by rw [hm2, htake], ?_⟩
    rw [hsc2, htake, pointsOf_append_singleton, hsc]

/-- Witness of C19: round 0 of `recordedWithRequestedBye`, whose player 2 has
a half-point bye that did not take part in the pairing. -/
theorem C19_score_lags_bye_placeholder_witness :
    ∃ snapshot,
      snapshotAt (plainCollaborators fun _ => none) recordedWithRequestedBye "t" false 0 =
        some snapshot ∧
      ∀ (j : Nat) (op : Player), recordedWithRequestedBye.players[j]? = some op →
        ∃ p m, snapshot.players[j]? = some p ∧ op.matches_[0]? = some m ∧
          p.scoreWithoutAcceleration =
            ((op.matches_.take 0).map fun x =>
              (plainCollaborators fun _ => none).getPoints x.matchScore).sum ∧
          (m.participatedInPairing = false → p.matches_ = op.matches_.take 0 ++ [m]) ∧
          ∀ s2, stateAfter (plainCollaborators fun _ => none) recordedWithRequestedBye "t"
              false (0 + 1) = some s2 →
            ∃ p2, s2.tournament.players[j]? = some p2 ∧
              p2.matches_ = op.matches_.take 0 ++ [m] ∧
              p2.scoreWithoutAcceleration =
                p.scoreWithoutAcceleration +
                  (plainCollaborators fun _ => none).getPoints m.matchScore :=
  C19_score_lags_bye_placeholder (plainCollaborators fun _ => none) recordedWithRequestedBye
    "t" false 0 (initialState recordedWithRequestedBye) (by unfold HasRounds; decide)
    ⟨by decide, fun _ => List.Perm.refl _⟩ (by decide) rfl

/-! ## The table: claims C13 and C14 -/

theorem tableRows_eq_zipWith :
    ∀ kept sorted : List Pairing, kept.length ≤ sorted.length →
      tableRows kept sorted = some (List.zipWith tableRowOf kept sorted) := by
  intro kept
  induction kept with
  | nil => intro sorted _; rfl
  | cons e rest ih =>
    intro sorted h
    cases sorted with
    | nil => simp at h
    | cons p ps =>
      simp only [tableRows, ih ps (by simpa using h), List.zipWith_cons_cons]

theorem tableRows_eq_none :
    ∀ kept sorted : List Pairing, sorted.length < kept.length →
      tableRows kept sorted = none := by
  intro kept
  induction kept with
  | nil => intro sorted h; simp at h
  | cons e rest ih =>
    intro sorted h
    cases sorted with
    | nil => rfl
    | cons p ps =>
      simp only [tableRows, ih ps (by simpa using h)]

theorem zipWith_tableRowOf_take :
    ∀ kept sorted : List Pairing,
      List.zipWith tableRowOf kept sorted =
        List.zipWith tableRowOf kept (sorted.take kept.length) := by
  intro kept
  induction kept with
  | nil => intro sorted; simp
  | cons e rest ih =>
    intro sorted
    cases sorted with
    | nil => rfl
    | cons p ps =>
      simp only [List.zipWith_cons_cons, List.length_cons, List.take_succ_cons]
      rw [← ih ps]

/-- What the `try` block writes when the comparator loop has a result and
the sorted provided list has an entry for every kept entry. -/
theorem compareOutcome_table (c : Collaborators) (orig t : Tournament)
    (matching kept provided : List Pairing)
    (hfind : findIncorrect orig t.playedRounds matching ([], []) = some (kept, provided))
    (hlen : kept.length ≤ (c.sortResults provided t).length) :
    compareOutcome c orig t (some matching) =
      some (if kept = [] then []
        else Event.tableHeader ::
          List.zipWith tableRowOf kept (c.sortResults provided t) ++ [Event.blank]) := by
  simp only [compareOutcome, hfind, outputIncorrect]
  split
  · rfl
  · rw [tableRows_eq_zipWith _ _ hlen]

/-- C13 as stated fails: `check` never aborts with an error.  With a record
without symmetric twins (`recordedAsymmetric`), with a recorded opponent
index that is not a player (`recordedOpponentOutOfRange`), and with a
provided list of three entries against two kept edges
(`recordedWithBye`, engine `(2,1), (0,0)`), `check` runs to its end and
writes a pairing table. -/
theorem C13_inconsistent_input_still_writes_table :
    (symmetricRound recordedAsymmetric 0 = false ∧
      ∃ s, check
          (plainCollaborators fun _ =>
            some [Pairing.mk 1 0 Color.white, Pairing.mk 2 2 Color.noColor])
          recordedAsymmetric "t" false = some s ∧
        Event.tableHeader ∈ s.out) ∧
    (matchAt recordedOpponentOutOfRange 0 0 =
        some (Match.mk 7 Color.white MatchScore.win true) ∧
      ∃ s, check (plainCollaborators fun _ => some [Pairing.mk 0 1 Color.white])
          recordedOpponentOutOfRange "t" false = some s ∧
        Event.tableRow 1 2 1 8 ∈ s.out) ∧
    (findIncorrect recordedWithBye 0
        [Pairing.mk 2 1 Color.white, Pairing.mk 0 0 Color.noColor] ([], []) =
      some ([Pairing.mk 2 1 Color.white, Pairing.mk 0 0 Color.noColor],
        [Pairing.mk 2 2 Color.noColor, Pairing.mk 0 1 Color.white,
         Pairing.mk 0 1 Color.white]) ∧
      ∃ s, check
          (plainCollaborators fun _ =>
            some [Pairing.mk 2 1 Color.white, Pairing.mk 0 0 Color.noColor])
          recordedWithBye "t" false = some s ∧
        Event.tableHeader ∈ s.out) := by
  refine ⟨⟨by decide, _, rfl, by decide⟩, ⟨by decide, _, rfl, by decide⟩,
    ⟨by decide, _, rfl, by decide⟩⟩

/-- C13, amended: `check` validates nothing and has no abort path.  Whenever
the comparator loop has a result with a kept entry and the sorted provided
list has an entry for every kept entry, the round writes its table: the
header, one row per kept entry and a blank line.  This needs no symmetry of
the record and no bound on the recorded opponent indices, and a provided list
longer than the kept list is cut to the kept list's length. -/
theorem C13_no_validation_table_is_written (c : Collaborators)
    (originalTournament t : Tournament) (correctMatching kept provided : List Pairing)
    (hfind : findIncorrect originalTournament t.playedRounds correctMatching ([], []) =
      some (kept, provided))
    (hkept : kept ≠ [])
    (hlen : kept.length ≤ (c.sortResults provided t).length) :
    ∃ rows,
      compareOutcome c originalTournament t (some correctMatching) =
        some (Event.tableHeader :: rows ++ [Event.blank]) ∧
      rows.length = kept.length ∧
      rows = List.zipWith tableRowOf kept ((c.sortResults provided t).take kept.length) := by
  refine ⟨List.zipWith tableRowOf kept (c.sortResults provided t), ?_, ?_, ?_⟩
  · rw [compareOutcome_table c originalTournament t correctMatching kept provided hfind hlen,
      if_neg hkept]
  · rw [List.length_zipWith]
    omega
  · exact zipWith_tableRowOf_take kept _

/-- Witness of C13 (amended): the record without symmetric twins. -/
theorem C13_no_validation_table_is_written_witness :
    symmetricRound recordedAsymmetric 0 = false ∧
    ∃ rows,
      compareOutcome
          (plainCollaborators fun _ => none) recordedAsymmetric
          (initialState recordedAsymmetric).tournament
          (some [Pairing.mk 1 0 Color.white, Pairing.mk 2 2 Color.noColor]) =
        some (Event.tableHeader :: rows ++ [Event.blank]) ∧
      rows.length = [Pairing.mk 1 0 Color.white, Pairing.mk 2 2 Color.noColor].length ∧
      rows = List.zipWith tableRowOf
        [Pairing.mk 1 0 Color.white, Pairing.mk 2 2 Color.noColor]
        (((plainCollaborators fun _ => none).sortResults
          [Pairing.mk 1 2 Color.white, Pairing.mk 0 1 Color.white]
          (initialState recordedAsymmetric).tournament).take
            [Pairing.mk 1 0 Color.white, Pairing.mk 2 2 Color.noColor].length) :=
  ⟨by decide,
    C13_no_validation_table_is_written (plainCollaborators fun _ => none) recordedAsymmetric
      (initialState recordedAsymmetric).tournament
      [Pairing.mk 1 0 Color.white, Pairing.mk 2 2 Color.noColor]
      [Pairing.mk 1 0 Color.white, Pairing.mk 2 2 Color.noColor]
      [Pairing.mk 1 2 Color.white, Pairing.mk 0 1 Color.white]
      (by decide) (by decide) (by decide)⟩

/-- The contents of the table where its rows are defined: let the comparator
loop have a result and let the sorted provided list have an entry for every
kept entry.  The table is written exactly when the list of kept entries is
not empty.  It then has one row per kept entry, in that list's order, and row
`i` prints the kept edge and the provided edge at position `i`, each as white
index plus one and black index plus one, the second number being `0` exactly
when black equals white. -/
theorem table_contents_of_aligned_lists (c : Collaborators)
    (originalTournament t : Tournament) (correctMatching kept provided : List Pairing)
    (hfind : findIncorrect originalTournament t.playedRounds correctMatching ([], []) =
      some (kept, provided))
    (hlen : kept.length ≤ (c.sortResults provided t).length) :
    ∃ report,
      compareOutcome c originalTournament t (some correctMatching) = some report ∧
      (Event.tableHeader ∈ report ↔ kept ≠ []) ∧
      (kept = [] → report = []) ∧
      (kept ≠ [] →
        ∃ rows, report = Event.tableHeader :: rows ++ [Event.blank] ∧
          rows.length = kept.length ∧
          ∀ i, i < kept.length →
            ∃ cp pp, kept[i]? = some cp ∧ (c.sortResults provided t)[i]? = some pp ∧
              rows[i]? = some
                (Event.tableRow (cp.white + 1)
                  (if cp.black = cp.white then 0 else cp.black + 1)
                  (pp.white + 1)
                  (if pp.black = pp.white then 0 else pp.black + 1))) := by
  refine ⟨_, compareOutcome_table c originalTournament t correctMatching kept provided hfind
    hlen, ?_, ?_, ?_⟩
  · by_cases hk : kept = []
    · simp [hk]
    · simp [hk]
  · intro hk
    rw [if_pos hk]
  · intro hk
    rw [if_neg hk]
    refine ⟨_, rfl, by rw [List.length_zipWith]; omega, ?_⟩
    intro i hi
    have hi2 : i < (c.sortResults provided t).length := by omega
    refine ⟨kept[i], (c.sortResults provided t)[i], List.getElem?_eq_getElem hi,
      List.getElem?_eq_getElem hi2, ?_⟩
    rw [List.getElem?_zipWith, List.getElem?_eq_getElem hi, List.getElem?_eq_getElem hi2]
    rfl

/-- The table for the engine's list `(2,1), (0,0)` against `recordedWithBye`,
where the provided list has three entries for two kept edges. -/
theorem table_contents_of_aligned_lists_example :
    ∃ report,
      compareOutcome (plainCollaborators fun _ => none) recordedWithBye
          (initialState recordedWithBye).tournament
          (some [Pairing.mk 2 1 Color.white, Pairing.mk 0 0 Color.noColor]) = some report ∧
      (Event.tableHeader ∈ report ↔
        [Pairing.mk 2 1 Color.white, Pairing.mk 0 0 Color.noColor] ≠ []) ∧
      ([Pairing.mk 2 1 Color.white, Pairing.mk 0 0 Color.noColor] = [] → report = []) ∧
      ([Pairing.mk 2 1 Color.white, Pairing.mk 0 0 Color.noColor] ≠ [] →
        ∃ rows, report = Event.tableHeader :: rows ++ [Event.blank] ∧
          rows.length = [Pairing.mk 2 1 Color.white, Pairing.mk 0 0 Color.noColor].length ∧
          ∀ i, i < [Pairing.mk 2 1 Color.white, Pairing.mk 0 0 Color.noColor].length →
            ∃ cp pp,
              [Pairing.mk 2 1 Color.white, Pairing.mk 0 0 Color.noColor][i]? = some cp ∧
              ((plainCollaborators fun _ => none).sortResults
                [Pairing.mk 2 2 Color.noColor, Pairing.mk 0 1 Color.white,
                 Pairing.mk 0 1 Color.white]
                (initialState recordedWithBye).tournament)[i]? = some pp ∧
              rows[i]? = some
                (Event.tableRow (cp.white + 1)
                  (if cp.black = cp.white then 0 else cp.black + 1)
                  (pp.white + 1)
                  (if pp.black = pp.white then 0 else pp.black + 1))) :=
  table_contents_of_aligned_lists (plainCollaborators fun _ => none) recordedWithBye
    (initialState recordedWithBye).tournament
    [Pairing.mk 2 1 Color.white, Pairing.mk 0 0 Color.noColor]
    [Pairing.mk 2 1 Color.white, Pairing.mk 0 0 Color.noColor]
    [Pairing.mk 2 2 Color.noColor, Pairing.mk 0 1 Color.white, Pairing.mk 0 1 Color.white]
    (by decide) (by decide)

/-- C14 (report table contents) evaluated where it fails.  On
`recordedWithBye` with the engine's complete pairing `(0,2), (1,1)` the list
of kept entries has two entries, so the table is due with two rows.  The
first row is `1 - 3` against `1 - 2`.  The provided list has one entry only:
the second row has no provided entry at its position, the table loop reads
the provided list past its end, and the block has no defined result. -/
theorem C14_second_row_has_no_provided_entry :
    ∃ kept provided,
      findIncorrect recordedWithBye 0
          [Pairing.mk 0 2 Color.white, Pairing.mk 1 1 Color.noColor] ([], []) =
        some (kept, provided) ∧
      kept ≠ [] ∧ kept.length = 2 ∧
      ((plainCollaborators fun _ => none).sortResults provided
        (initialState recordedWithBye).tournament).length = 1 ∧
      tableRows (kept.take 1)
          ((plainCollaborators fun _ => none).sortResults provided
            (initialState recordedWithBye).tournament) =
        some [Event.tableRow 1 3 1 2] ∧
      ((plainCollaborators fun _ => none).sortResults provided
        (initialState recordedWithBye).tournament)[1]? = none ∧
      tableRows kept
          ((plainCollaborators fun _ => none).sortResults provided
            (initialState recordedWithBye).tournament) = none ∧
      compareOutcome (plainCollaborators fun _ => none) recordedWithBye
          (initialState recordedWithBye).tournament
          (some [Pairing.mk 0 2 Color.white, Pairing.mk 1 1 Color.noColor]) = none := by
  refine ⟨_, _, rfl, by decide, by decide, by decide, by decide, by decide, by decide,
    by decide⟩

/-! ## The set-based formulation and the end-to-end scenario: claims C17 and C15 -/

/-- C17 (equivalence with set-based dedup) evaluated where it fails, on the
symmetric round of `recordedWithBye`.  For the complete pairing
`(0,2), (1,1)` the index tests give the provided list `(0,1)` and the
set-based formulation gives `(0,1), (2,2)`: the recorded bye of player 2 is
in one and not in the other.  For the complete pairing `(1,2), (0,0)` the
index tests give `(0,1), (0,1)` and the set-based formulation gives
`(1,0), (2,2)`. -/
theorem C17_index_tests_differ_from_set_based :
    symmetricRound recordedWithBye 0 = true ∧
    (completePairing [Pairing.mk 0 2 Color.white, Pairing.mk 1 1 Color.noColor] 3 = true ∧
      ∃ kept provided keptSet providedSet,
        findIncorrect recordedWithBye 0
            [Pairing.mk 0 2 Color.white, Pairing.mk 1 1 Color.noColor] ([], []) =
          some (kept, provided) ∧
        findIncorrectSetBased recordedWithBye 0
            [Pairing.mk 0 2 Color.white, Pairing.mk 1 1 Color.noColor] ([], []) =
          some (keptSet, providedSet) ∧
        provided = [Pairing.mk 0 1 Color.white] ∧
        providedSet = [Pairing.mk 0 1 Color.white, Pairing.mk 2 2 Color.noColor] ∧
        provided.countP (Pairing.sameEdge (Pairing.mk 2 2 Color.noColor)) = 0 ∧
        providedSet.countP (Pairing.sameEdge (Pairing.mk 2 2 Color.noColor)) = 1) ∧
    (completePairing [Pairing.mk 1 2 Color.white, Pairing.mk 0 0 Color.noColor] 3 = true ∧
      ∃ kept provided keptSet providedSet,
        findIncorrect recordedWithBye 0
            [Pairing.mk 1 2 Color.white, Pairing.mk 0 0 Color.noColor] ([], []) =
          some (kept, provided) ∧
        findIncorrectSetBased recordedWithBye 0
            [Pairing.mk 1 2 Color.white, Pairing.mk 0 0 Color.noColor] ([], []) =
          some (keptSet, providedSet) ∧
        provided = [Pairing.mk 0 1 Color.white, Pairing.mk 0 1 Color.white] ∧
        providedSet = [Pairing.mk 1 0 Color.black, Pairing.mk 2 2 Color.noColor] ∧
        provided.countP (Pairing.sameEdge (Pairing.mk 0 1 Color.white)) = 2 ∧
        providedSet.countP (Pairing.sameEdge (Pairing.mk 0 1 Color.white)) = 1) := by
  refine ⟨by decide, ⟨by decide, _, _, _, _, rfl, rfl, by decide, by decide, by decide,
    by decide⟩,
    ⟨by decide, _, _, _, _, rfl, rfl, by decide, by decide, by decide, by decide⟩⟩

/-- A fixed-point-free involution of `0, 1, 2, 3` is one of the three
pairings of four players. -/
theorem four_player_pairings (f : Nat → Nat) (hlt : ∀ x, x < 4 → f x < 4)
    (hne : ∀ x, x < 4 → f x ≠ x) (hinv : ∀ x, x < 4 → f (f x) = x) :
    (f 0 = 1 ∧ f 1 = 0 ∧ f 2 = 3 ∧ f 3 = 2) ∨
      (f 0 = 2 ∧ f 1 = 3 ∧ f 2 = 0 ∧ f 3 = 1) ∨
      (f 0 = 3 ∧ f 1 = 2 ∧ f 2 = 1 ∧ f 3 = 0) := by
  have a0 : f 0 = 1 ∨ f 0 = 2 ∨ f 0 = 3 := by
    have h1 := hlt 0 (by omega)
    have h2 := hne 0 (by omega)
    omega
  have a1 : f 1 = 0 ∨ f 1 = 2 ∨ f 1 = 3 := by
    have h1 := hlt 1 (by omega)
    have h2 := hne 1 (by omega)
    omega
  have a2 : f 2 = 0 ∨ f 2 = 1 ∨ f 2 = 3 := by
    have h1 := hlt 2 (by omega)
    have h2 := hne 2 (by omega)
    omega
  have a3 : f 3 = 0 ∨ f 3 = 1 ∨ f 3 = 2 := by
    have h1 := hlt 3 (by omega)
    have h2 := hne 3 (by omega)
    omega
  have e0 := hinv 0 (by omega)
  have e1 := hinv 1 (by omega)
  have e2 := hinv 2 (by omega)
  have e3 := hinv 3 (by omega)
  rcases a0 with a0 | a0 | a0 <;> rcases a1 with a1 | a1 | a1 <;>
    rcases a2 with a2 | a2 | a2 <;> rcases a3 with a3 | a3 | a3 <;>
    simp only [a0, a1, a2, a3] at e0 e1 e2 e3 <;> omega

theorem matchAt_lt (t : Tournament) (j r : Nat) (m : Match) (h : matchAt t j r = some m) :
    j < t.players.length := by
  simp only [matchAt] at h
  cases hp : t.players[j]? with
  | none => rw [hp] at h; exact absurd h (by simp)
  | some p => exact (List.getElem?_eq_some.1 hp).1

/-- The comparison of a swap among four players, in numbers: when the four
recorded matches of the round form one of the three pairings and the engine's
two edges cover the four players, a mismatch of the first edge makes the
second edge a mismatch too, and the two edges emit two entries together. -/
theorem swap_emits_two (orig : Tournament) (r : Nat) (m0 m1 m2 m3 : Match)
    (h0 : matchAt orig 0 r = some m0) (h1 : matchAt orig 1 r = some m1)
    (h2 : matchAt orig 2 r = some m2) (h3 : matchAt orig 3 r = some m3)
    (hcase : (m0.opponent = 1 ∧ m1.opponent = 0 ∧ m2.opponent = 3 ∧ m3.opponent = 2) ∨
      (m0.opponent = 2 ∧ m1.opponent = 3 ∧ m2.opponent = 0 ∧ m3.opponent = 1) ∨
      (m0.opponent = 3 ∧ m1.opponent = 2 ∧ m2.opponent = 1 ∧ m3.opponent = 0))
    (w1 b1 w2 b2 : Nat) (c1 c2 : Color)
    (hw1 : w1 < 4) (hb1 : b1 < 4) (hw2 : w2 < 4) (hb2 : b2 < 4)
    (d1 : w1 ≠ b1) (d2 : w1 ≠ w2) (d3 : w1 ≠ b2) (d4 : b1 ≠ w2) (d5 : b1 ≠ b2)
    (d6 : w2 ≠ b2)
    (hmis : mismatches orig r (Pairing.mk w1 b1 c1) = true) :
    mismatches orig r (Pairing.mk w2 b2 c2) = true ∧
      (emitted orig r (Pairing.mk w1 b1 c1) ++ emitted orig r (Pairing.mk w2 b2 c2)).length =
        2 := by
  rcases hcase with ⟨o0, o1, o2, o3⟩ | ⟨o0, o1, o2, o3⟩ | ⟨o0, o1, o2, o3⟩ <;>
    interval_cases w1 <;> interval_cases b1 <;> first
      | omega
      | (interval_cases w2 <;> first
          | omega
          | (interval_cases b2 <;> first
              | omega
              | (simp [mismatches, emitted, emittedWhite, emittedBlack, h0, h1, h2, h3,
                  o0, o1, o2, o3] at hmis ⊢)))

theorem emitted_mem (orig : Tournament) (r : Nat) (e p : Pairing)
    (hp : p ∈ emitted orig r e) :
    p.white ≤ p.black ∧ ∃ m, matchAt orig p.white r = some m ∧ m.opponent = p.black := by
  simp only [emitted, List.mem_append] at hp
  rcases hp with hp | hp
  · simp only [emittedWhite] at hp
    cases hw : matchAt orig e.white r with
    | none => rw [hw] at hp; simp at hp
    | some wm =>
      rw [hw] at hp
      simp only at hp
      split at hp
      · rename_i hle
        rw [List.mem_singleton] at hp
        subst hp
        exact ⟨hle, wm, hw, rfl⟩
      · simp at hp
  · simp only [emittedBlack] at hp
    cases hb : matchAt orig e.black r with
    | none => rw [hb] at hp; simp at hp
    | some bm =>
      rw [hb] at hp
      simp only at hp
      split at hp
      · rename_i hlt
        rw [List.mem_singleton] at hp
        subst hp
        exact ⟨Nat.le_of_lt hlt, bm, hb, rfl⟩
      · simp at hp

theorem noByeRound_opponent (orig : Tournament) (r p : Nat) (m : Match)
    (hno : noByeRound orig r = true) (hm : matchAt orig p r = some m) : m.opponent ≠ p := by
  simp only [noByeRound, List.all_eq_true, List.mem_range] at hno
  have h := hno p (matchAt_lt orig p r m hm)
  simpa [hm] using h

theorem snapshotAt_playedRounds (c : Collaborators) (orig : Tournament) (fn : String)
    (cl : Bool) (r : Nat) (t : Tournament) (hr : r ≤ orig.playedRounds)
    (h : snapshotAt c orig fn cl r = some t) : t.playedRounds = r := by
  obtain ⟨s0, hs0, ht⟩ := snapshotAt_eq_some c orig fn cl r t h
  rw [beforeInvoke_playedRounds c orig _ t ht]
  exact stateAfter_playedRounds c orig fn cl r s0 hr hs0

theorem compareOutcome_all_match (c : Collaborators) (orig t : Tournament)
    (matching : List Pairing)
    (h : ∀ e ∈ matching, ∃ m,
      matchAt orig e.white t.playedRounds = some m ∧ m.opponent = e.black) :
    compareOutcome c orig t (some matching) = some [] := by
  simp [compareOutcome, findIncorrect_all_match orig t.playedRounds matching h ([], []),
    outputIncorrect]

/-- The comparison of a round of four players without byes whose record is
symmetric, against two edges that cover the four players and of which the
first is a mismatch: both edges are kept and the provided list has two
entries, each a recorded game written from its smaller player. -/
theorem swap_comparison (orig : Tournament) (r : Nat) (e1 e2 : Pairing)
    (h4 : orig.players.length = 4) (hsym : symmetricRound orig r = true)
    (hno : noByeRound orig r = true)
    (hcover : [e1.white, e1.black, e2.white, e2.black].Perm [0, 1, 2, 3])
    (hmis : mismatches orig r e1 = true) :
    ∃ provided, findIncorrect orig r [e1, e2] ([], []) = some ([e1, e2], provided) ∧
      provided.length = 2 ∧
      ∀ p ∈ provided, p.white < p.black ∧
        ∃ m, matchAt orig p.white r = some m ∧ m.opponent = p.black := by
  have hg : ∀ x, x < 4 → ∃ m twin, matchAt orig x r = some m ∧
      matchAt orig m.opponent r = some twin ∧ twin.opponent = x ∧ m.opponent < 4 ∧
      m.opponent ≠ x := by
    intro x hx
    obtain ⟨m, twin, hm, ht, hto⟩ := symmetricRound_twin orig r x hsym (by rw [h4]; exact hx)
    exact ⟨m, twin, hm, ht, hto, by rw [← h4]; exact matchAt_lt orig _ r twin ht,
      noByeRound_opponent orig r x m hno hm⟩
  obtain ⟨m0, t0, h0, ht0, hto0, hl0, hn0⟩ := hg 0 (by omega)
  obtain ⟨m1, t1, h1, ht1, hto1, hl1, hn1⟩ := hg 1 (by omega)
  obtain ⟨m2, t2, h2, ht2, hto2, hl2, hn2⟩ := hg 2 (by omega)
  obtain ⟨m3, t3, h3, ht3, hto3, hl3, hn3⟩ := hg 3 (by omega)
  have hall : ∀ x, x < 4 → ∃ m, matchAt orig x r = some m := fun x hx =>
    let ⟨m, _, hm, _⟩ := hg x hx
    ⟨m, hm⟩
  let g : Nat → Nat := fun x =>
    match matchAt orig x r with
    | some m => m.opponent
    | none => 0
  have hgx : ∀ x m, matchAt orig x r = some m → g x = m.opponent := by
    intro x m hm
    simp only [g, hm]
  have hcase := four_player_pairings g
    (fun x hx => by
      obtain ⟨m, twin, hm, _, _, hl, _⟩ := hg x hx
      rw [hgx x m hm]; exact hl)
    (fun x hx => by
      obtain ⟨m, twin, hm, _, _, _, hn⟩ := hg x hx
      rw [hgx x m hm]; exact hn)
    (fun x hx => by
      obtain ⟨m, twin, hm, ht, hto, _, _⟩ := hg x hx
      rw [hgx x m hm, hgx _ twin ht]; exact hto)
  rw [hgx 0 m0 h0, hgx 1 m1 h1, hgx 2 m2 h2, hgx 3 m3 h3] at hcase
  have hnodup : [e1.white, e1.black, e2.white, e2.black].Nodup :=
    hcover.nodup_iff.2 (by decide)
  have hmem : ∀ x ∈ [e1.white, e1.black, e2.white, e2.black], x < 4 := by
    intro x hx
    have := hcover.mem_iff.1 hx
    simp only [List.mem_cons, List.mem_singleton, List.not_mem_nil, or_false] at this
    omega
  obtain ⟨w1, b1, c1⟩ := e1
  obtain ⟨w2, b2, c2⟩ := e2
  simp only [List.nodup_cons, List.mem_cons, List.mem_singleton, List.not_mem_nil,
    not_or, or_false, not_false_eq_true, List.nodup_nil, and_true] at hnodup
  obtain ⟨⟨d1, d2, d3⟩, ⟨d4, d5⟩, d6⟩ := hnodup
  have hw1 := hmem w1 (by simp)
  have hb1 := hmem b1 (by simp)
  have hw2 := hmem w2 (by simp)
  have hb2 := hmem b2 (by simp)
  obtain ⟨hmis2, hcount⟩ := swap_emits_two orig r m0 m1 m2 m3 h0 h1 h2 h3 hcase w1 b1 w2 b2
    c1 c2 hw1 hb1 hw2 hb2 d1 d2 d3 d4 d5 d6 hmis
  have hreads : ReadsInRange orig r [Pairing.mk w1 b1 c1, Pairing.mk w2 b2 c2] := by
    intro e he
    simp only [List.mem_cons, List.mem_singleton, List.not_mem_nil, or_false] at he
    rcases he with rfl | rfl
    · exact ⟨hall _ hw1, fun _ => hall _ hb1⟩
    · exact ⟨hall _ hw2, fun _ => hall _ hb2⟩
  have hclosed := findIncorrect_closed_form orig r _ hreads
  simp only [List.filter_cons, hmis, hmis2, if_true, List.filter_nil, List.flatMap_cons,
    List.flatMap_nil, List.append_nil] at hclosed
  refine ⟨_, hclosed, hcount, ?_⟩
  intro p hp
  have hp2 : p ∈ emitted orig r (Pairing.mk w1 b1 c1) ∨
      p ∈ emitted orig r (Pairing.mk w2 b2 c2) := List.mem_append.1 hp
  have hfact : p.white ≤ p.black ∧ ∃ m, matchAt orig p.white r = some m ∧
      m.opponent = p.black := by
    rcases hp2 with h | h
    · exact emitted_mem orig r _ p h
    · exact emitted_mem orig r _ p h
  obtain ⟨hle, m, hm, hmo⟩ := hfact
  have hne := noByeRound_opponent orig r p.white m hno hm
  exact ⟨by omega, m, hm, hmo⟩

/-- C15 as stated fails: in `recordedTwoRounds` with `swappingEngine`, which
proposes the recorded pairing in the first round and swaps the opponents of
players 0 and 3 in the second, `check` writes no table for the first round
and a table of two rows, not one, for the second. -/
theorem C15_swap_gives_two_rows :
    ∃ s, check (plainCollaborators swappingEngine) recordedTwoRounds "t" false = some s ∧
      s.out =
        [Event.roundHeader "t" 1,
         Event.invoke (initialState recordedTwoRounds).tournament,
         Event.roundHeader "t" 2,
         Event.invoke replayedFirstRound.tournament,
         Event.tableHeader,
         Event.tableRow 1 2 1 3,
         Event.tableRow 4 3 2 4,
         Event.blank] ∧
      (s.out.filter isTableRow).length = 2 ∧ (s.out.filter isTableRow).length ≠ 1 := by
  refine ⟨_, rfl, by decide, by decide, by decide⟩

/-- C15, amended (end-to-end scenario): take a recorded tournament of four
players and two rounds whose second round is two games, an engine whose list
for the first round matches the record and whose list for the second round
is two edges `e1`, `e2` that cover the four players and differ from the
record (the opponents of two players are swapped), and a sorting of the
provided list that permutes it.  Then `check` runs to its end; it writes no
table for the first round; and for the second round it writes a table of
exactly two rows, one per engine edge, each aligned with one recorded game
of the round, all player numbers printed one-based. -/
theorem C15_end_to_end_swap (c : Collaborators) (originalTournament : Tournament)
    (filename : String) (checklistStream : Bool) (e1 e2 : Pairing)
    (h4 : originalTournament.players.length = 4)
    (h2 : originalTournament.playedRounds = 2)
    (hrounds : HasRounds originalTournament)
    (hranks : RanksEveryPlayer c originalTournament)
    (hsort : ∀ (l : List Pairing) (t : Tournament), (c.sortResults l t).Perm l)
    (hsym : symmetricRound originalTournament 1 = true)
    (hno : noByeRound originalTournament 1 = true)
    (hfirst : ∀ t0, snapshotAt c originalTournament filename checklistStream 0 = some t0 →
      ∃ matching, c.computeMatching t0 = some matching ∧
        ∀ e ∈ matching, ∃ m,
          matchAt originalTournament e.white 0 = some m ∧ m.opponent = e.black)
    (hsecond : ∀ t1, snapshotAt c originalTournament filename checklistStream 1 = some t1 →
      c.computeMatching t1 = some [e1, e2])
    (hcover : [e1.white, e1.black, e2.white, e2.black].Perm [0, 1, 2, 3])
    (hswap : mismatches originalTournament 1 e1 = true) :
    ∃ (s : ReplayState) (t0 t1 : Tournament) (p1 p2 : Pairing),
      check c originalTournament filename checklistStream = some s ∧
      snapshotAt c originalTournament filename checklistStream 0 = some t0 ∧
      snapshotAt c originalTournament filename checklistStream 1 = some t1 ∧
      s.out =
        roundHeaders filename checklistStream 0 ++ [Event.invoke t0] ++
          (roundHeaders filename checklistStream 1 ++
            [Event.invoke t1, Event.tableHeader,
             Event.tableRow (e1.white + 1) (e1.black + 1) (p1.white + 1) (p1.black + 1),
             Event.tableRow (e2.white + 1) (e2.black + 1) (p2.white + 1) (p2.black + 1),
             Event.blank]) ∧
      ∀ p ∈ [p1, p2], p.white < p.black ∧
        ∃ m, matchAt originalTournament p.white 1 = some m ∧ m.opponent = p.black := by
  obtain ⟨provided, hfind, hplen, hpfact⟩ :=
    swap_comparison originalTournament 1 e1 e2 h4 hsym hno hcover hswap
  have hnodup : [e1.white, e1.black, e2.white, e2.black].Nodup :=
    hcover.nodup_iff.2 (by decide)
  simp only [List.nodup_cons, List.mem_cons, List.mem_singleton, List.not_mem_nil,
    not_or, or_false, not_false_eq_true, List.nodup_nil, and_true] at hnodup
  obtain ⟨⟨d1, _, _⟩, _, d6⟩ := hnodup
  have hcmp0 : ∀ t, snapshotAt c originalTournament filename checklistStream 0 = some t →
      compareOutcome c originalTournament t (c.computeMatching t) = some [] := by
    intro t ht
    obtain ⟨matching, hm, hall⟩ := hfirst t ht
    have hpr := snapshotAt_playedRounds c originalTournament filename checklistStream 0 t
      (by omega) ht
    rw [hm]
    exact compareOutcome_all_match c originalTournament t matching (by rw [hpr]; exact hall)
  have hcmp1 : ∀ t, snapshotAt c originalTournament filename checklistStream 1 = some t →
      compareOutcome c originalTournament t (c.computeMatching t) =
        some (Event.tableHeader ::
          List.zipWith tableRowOf [e1, e2] (c.sortResults provided t) ++ [Event.blank]) := by
    intro t ht
    have hpr := snapshotAt_playedRounds c originalTournament filename checklistStream 1 t
      (by omega) ht
    rw [hsecond t ht,
      compareOutcome_table c originalTournament t [e1, e2] [e1, e2] provided
        (by rw [hpr]; exact hfind) (by rw [(hsort provided t).length_eq, hplen]; rfl)]
    simp
  have hdef : ∀ (r : Nat) (t : Tournament), r < originalTournament.playedRounds →
      snapshotAt c originalTournament filename checklistStream r = some t →
      compareOutcome c originalTournament t (c.computeMatching t) ≠ none := by
    intro r t hr ht
    rw [h2] at hr
    interval_cases r
    · rw [hcmp0 t ht]; simp
    · rw [hcmp1 t ht]; simp
  have hall := stateAfter_isSome c originalTournament filename checklistStream hrounds hranks
    hdef
  obtain ⟨s, hs, _⟩ := hall 2 (by omega)
  obtain ⟨_, _, hsnap0⟩ := hall 0 (by omega)
  obtain ⟨_, _, hsnap1⟩ := hall 1 (by omega)
  obtain ⟨t0, ht0, _⟩ := hsnap0 (by omega)
  obtain ⟨t1, ht1, _⟩ := hsnap1 (by omega)
  have hsorted := hsort provided t1
  have hslen : (c.sortResults provided t1).length = 2 := by rw [hsorted.length_eq, hplen]
  obtain ⟨p1, p2, hp12⟩ := List.length_eq_two.1 hslen
  have hpmem : ∀ p ∈ [p1, p2], p.white < p.black ∧
      ∃ m, matchAt originalTournament p.white 1 = some m ∧ m.opponent = p.black := by
    intro p hp
    rw [← hp12] at hp
    exact hpfact p (hsorted.mem_iff.1 hp)
  have hp1 := (hpmem p1 (by simp)).1
  have hp2 := (hpmem p2 (by simp)).1
  have hout := stateAfter_out c originalTournament filename checklistStream 2 s (by omega) hs
  refine ⟨s, t0, t1, p1, p2, by rw [← hs]; simp only [check, stateAfter, h2], ht0, ht1, ?_,
    hpmem⟩
  rw [hout]
  simp only [outputUpTo, roundOutput, ht0, ht1, hcmp0 t0 ht0, hcmp1 t1 ht1, hp12,
    List.nil_append, List.append_nil, List.zipWith_cons_cons, List.zipWith_nil_left,
    tableRowOf]
  have e1ne : ¬ e1.black = e1.white := fun h => d1 h.symm
  have e2ne : ¬ e2.black = e2.white := fun h => d6 h.symm
  have p1ne : ¬ p1.black = p1.white := by omega
  have p2ne : ¬ p2.black = p2.white := by omega
  simp [e1ne, e2ne, p1ne, p2ne]

/-- Witness of C15 (amended): `recordedTwoRounds` with `swappingEngine`. -/
theorem C15_end_to_end_swap_witness :
    ∃ (s : ReplayState) (t0 t1 : Tournament) (p1 p2 : Pairing),
      check (plainCollaborators swappingEngine) recordedTwoRounds "t" false = some s ∧
      snapshotAt (plainCollaborators swappingEngine) recordedTwoRounds "t" false 0 =
        some t0 ∧
      snapshotAt (plainCollaborators swappingEngine) recordedTwoRounds "t" false 1 =
        some t1 ∧
      s.out =
        roundHeaders "t" false 0 ++ [Event.invoke t0] ++
          (roundHeaders "t" false 1 ++
            [Event.invoke t1, Event.tableHeader,
             Event.tableRow ((Pairing.mk 0 1 Color.white).white + 1)
               ((Pairing.mk 0 1 Color.white).black + 1) (p1.white + 1) (p1.black + 1),
             Event.tableRow ((Pairing.mk 3 2 Color.white).white + 1)
               ((Pairing.mk 3 2 Color.white).black + 1) (p2.white + 1) (p2.black + 1),
             Event.blank]) ∧
      ∀ p ∈ [p1, p2], p.white < p.black ∧
        ∃ m, matchAt recordedTwoRounds p.white 1 = some m ∧ m.opponent = p.black :=
  C15_end_to_end_swap (plainCollaborators swappingEngine) recordedTwoRounds "t" false
    (Pairing.mk 0 1 Color.white) (Pairing.mk 3 2 Color.white) rfl rfl
    (by unfold HasRounds; decide) ⟨by decide, fun _ => List.Perm.refl _⟩
    (fun _ _ => List.Perm.refl _) (by decide) (by decide)
    (fun t0 h => by
      have h0 : snapshotAt (plainCollaborators swappingEngine) recordedTwoRounds "t" false 0 =
          some (initialState recordedTwoRounds).tournament := by decide
      rw [h0] at h
      rw [← Option.some.inj h]
      exact ⟨[Pairing.mk 0 1 Color.white, Pairing.mk 2 3 Color.white], rfl, by decide⟩)
    (fun t1 h => by
      have h1 : snapshotAt (plainCollaborators swappingEngine) recordedTwoRounds "t" false 1 =
          some replayedFirstRound.tournament := by decide
      rw [h1] at h
      rw [← Option.some.inj h]
      rfl)
    (by decide) (by decide)

end checker
end tournament
